import Mathlib

/-
  Verification of the CppRTOS kernel core against its specification.

  Shallow embedding of the C++ sources:
    - src/rtos/kernel/queue.h          (ring-buffer Queue)
    - src/rtos/kernel/semaphore.cpp    (SemaphoreAPI)
    - src/rtos/kernel/mutex.cpp        (MutexAPI)
    - src/util/rtos_heap.cpp           (RTOSHeap first-fit allocator)
    - src/rtos/kernel/timer.cpp        (TimerManager)
    - src/rtos/kernel/scheduler.cpp    (Scheduler) and kernel/task.cpp

  Machine integers are modelled as Nat with explicit reduction modulo
  2^32 (uint32_t / TickType_t) or 2^64 (size_t on the LP64 host the
  test-suite builds for) at exactly the operations where the C++ code
  can wrap.  Pointers of the heap are modelled as byte offsets into the
  arena; pointers to task control blocks as indices into the list of
  all TCBs, index 0 being the scheduler's builtin idle task.
-/

set_option maxHeartbeats 1600000

namespace CppRTOS

/-- `RTOSResult` from src/rtos/rtos_types.h (constructor `errIo` renders
    `RTOS_ERR_IO`). -/
inductive RTOSResult where
  | ok
  | errNomem
  | errInvalidParam
  | errTimeout
  | errNotFound
  | errAlreadyExists
  | errBusy
  | errNotReady
  | errIo
  | errFull
  | errEmpty
  | errGeneric
deriving DecidableEq, Repr

/-- `TaskState` from src/rtos/rtos_types.h. -/
inductive TaskState where
  | ready
  | running
  | blocked
  | suspended
  | deleted
deriving DecidableEq, Repr, Inhabited

/-- 2^32, the modulus of `uint32_t` / `TickType_t` arithmetic. -/
def M32 : Nat := 4294967296

/-- 2^64, the modulus of `size_t` arithmetic on the LP64 host. -/
def W64 : Nat := 18446744073709551616

/-- `uint32_t` addition. -/
def addm32 (a b : Nat) : Nat := (a + b) % M32

/-- `size_t` addition. -/
def addm (a b : Nat) : Nat := (a + b) % W64

/-- `size_t` subtraction (wrapping, as in C). -/
def subm (a b : Nat) : Nat := (a + (W64 - b % W64)) % W64

/- ===================== Ring buffer (kernel/queue.h) ===================== -/

/-- `Queue<T, MAX_ITEMS>` from src/rtos/kernel/queue.h: in-place circular
    buffer.  `buffer` has fixed length `MAX_ITEMS`; `head`, `tail`, `count`
    are the C++ members of the same names. -/
structure RQueue (α : Type) where
  buffer : List α
  head : Nat
  tail : Nat
  count : Nat
deriving Repr

/-- `MAX_ITEMS`, the template capacity parameter: the storage length. -/
def RQueue.cap {α} (q : RQueue α) : Nat := q.buffer.length

/-- `Queue::isEmpty`. -/
def RQueue.isEmpty {α} (q : RQueue α) : Bool := q.count == 0

/-- `Queue::isFull` (`count >= MAX_ITEMS`). -/
def RQueue.isFull {α} (q : RQueue α) : Bool := decide (q.cap ≤ q.count)

/-- `Queue::enqueue`: write at `tail`, advance `tail` modulo the capacity,
    bump `count`; fails on a full queue leaving the state untouched. -/
def RQueue.enqueue {α} (q : RQueue α) (item : α) : Bool × RQueue α :=
  if q.isFull then (false, q)
  else
    (true,
      { buffer := q.buffer.set q.tail item
        head := q.head
        tail := (q.tail + 1) % q.cap
        count := q.count + 1 })

/-- `Queue::dequeue`: read at `head`, advance `head` modulo the capacity,
    drop `count`; fails on an empty queue leaving the state untouched
    (the C++ version reports failure through its `bool` result and leaves
    the out-parameter unwritten, modelled by `none`). -/
def RQueue.dequeue {α} [Inhabited α] (q : RQueue α) : Option α × RQueue α :=
  if q.isEmpty then (none, q)
  else
    (some (q.buffer.getD q.head default),
      { buffer := q.buffer
        head := (q.head + 1) % q.cap
        tail := q.tail
        count := q.count - 1 })

/-- The queue produced by the `Queue()` constructor over a given storage
    area: `head = tail = count = 0`, element values indeterminate. -/
def RQueue.mk0 {α} (buf : List α) : RQueue α :=
  { buffer := buf, head := 0, tail := 0, count := 0 }

/-- Enqueue a list of items left to right, reporting whether every
    enqueue succeeded. -/
def RQueue.enqueueAll {α} : RQueue α → List α → Bool × RQueue α
  | q, [] => (true, q)
  | q, x :: xs =>
    ((q.enqueue x).1 && ((q.enqueue x).2.enqueueAll xs).1,
     ((q.enqueue x).2.enqueueAll xs).2)

/-- Dequeue `k` times, collecting the successfully returned values. -/
def RQueue.dequeueN {α} [Inhabited α] : Nat → RQueue α → List α × RQueue α
  | 0, q => ([], q)
  | k + 1, q =>
    match (q.dequeue).1 with
    | none => RQueue.dequeueN k (q.dequeue).2
    | some x =>
      (x :: (RQueue.dequeueN k (q.dequeue).2).1, (RQueue.dequeueN k (q.dequeue).2).2)

/-- Abstraction of the ring content as the list of stored values from
    `head` onwards, used to state FIFO order. -/
def RQueue.toModel {α} [Inhabited α] (q : RQueue α) : List α :=
  (List.range q.count).map (fun i => q.buffer.getD ((q.head + i) % q.cap) default)

/-- Structural invariant maintained by the ring-buffer operations. -/
def RQueue.Inv {α} (q : RQueue α) : Prop :=
  q.head < q.cap ∧ q.count ≤ q.cap ∧ q.tail = (q.head + q.count) % q.cap

/- ===================== Semaphore (kernel/semaphore.cpp) ================= -/

/-- `SemaphoreType` from src/rtos/kernel/semaphore.h. -/
inductive SemaphoreType where
  | binary
  | counting
deriving DecidableEq, Repr

/-- `Semaphore` from src/rtos/kernel/semaphore.h (the unused
    `waiting_list_head` pointer is dropped; `count` and `max_count` are
    `uint32_t`, whose guarded updates below can never wrap). -/
structure Semaphore where
  stype : SemaphoreType
  count : Nat
  max_count : Nat
deriving DecidableEq, Repr

/-- `SemaphoreAPI::take(handle, 0)`, the non-blocking path: if
    `count > 0` decrement and return OK, else (timeout is 0) ERR_BUSY. -/
def semTake0 (s : Semaphore) : RTOSResult × Semaphore :=
  if 0 < s.count then (.ok, { s with count := s.count - 1 })
  else (.errBusy, s)

/-- `SemaphoreAPI::give`: if `count >= max_count` return ERR_FULL,
    else increment and return OK. -/
def semGive (s : Semaphore) : RTOSResult × Semaphore :=
  if s.max_count ≤ s.count then (.errFull, s)
  else (.ok, { s with count := s.count + 1 })

/- ===================== Mutex (kernel/mutex.cpp) ========================= -/

/-- `Mutex` from src/rtos/kernel/mutex.h.  `owner` is the index of the
    owning task (`none` = no owner); `waiting_list_head` is declared in the
    C++ struct and initialised to null but never written or read by
    `lock`/`unlock` — the embedding keeps it to show it stays untouched. -/
structure MutexM where
  is_locked : Bool
  owner : Option Nat
  waiting_list_head : Option Nat
  recursive_count : Nat
deriving DecidableEq, Repr

/-- The `Mutex()` constructor. -/
def mutexMk : MutexM :=
  { is_locked := false, owner := none, waiting_list_head := none, recursive_count := 0 }

/-- `MutexAPI::lock(handle, 0)` called by task `current`: the decision
    made before the spin loop (with timeout 0 the loop is never entered).
    A `none` caller returns ERR_NOT_READY as in the source. -/
def mutexLock0 (m : MutexM) (current : Option Nat) : RTOSResult × MutexM :=
  match current with
  | none => (.errNotReady, m)
  | some c =>
    if ¬ m.is_locked then
      (.ok, { m with is_locked := true, owner := some c, recursive_count := 1 })
    else if m.owner = some c then (.errBusy, m)
    else (.errBusy, m)

/-- `MutexAPI::unlock` called by task `current`: not-locked or non-owner
    returns ERR_INVALID_PARAM; otherwise clear `is_locked`, `owner`,
    `recursive_count`.  No task from any wait list is promoted to owner:
    the function touches nothing else. -/
def mutexUnlock (m : MutexM) (current : Option Nat) : RTOSResult × MutexM :=
  if ¬ m.is_locked then (.errInvalidParam, m)
  else if ¬ (m.owner = current) then (.errInvalidParam, m)
  else (.ok, { m with is_locked := false, owner := none, recursive_count := 0 })

/- ===================== Heap (util/rtos_heap.cpp) ======================== -/

/-- `sizeof(HeapBlock)` on the LP64 host the tests build for:
    `size_t size` (8) + `bool is_free` (1, padded to 16) + two pointers
    (16) + `uint32_t magic` (4, padded to 8-byte struct alignment) = 40. -/
def HEAP_HDR : Nat := 40

/-- `RTOSHeap::MIN_BLOCK_SIZE`. -/
def MIN_BLOCK_SIZE : Nat := 16

/-- One `HeapBlock` header of src/util/rtos_heap.h, reduced to the fields
    the algorithms read: the payload size (`size_t`, wrapping) and the free
    flag.  `next`/`prev` are represented by list adjacency and `magic` is
    the agreed constant on every block the model can address. -/
structure HeapBlock where
  bsize : Nat
  is_free : Bool
deriving DecidableEq, Repr, Inhabited

/-- `HeapStats` from src/util/rtos_heap.h; all fields are `size_t`. -/
structure HeapStats where
  total_size : Nat
  free_size : Nat
  allocated_size : Nat
  peak_allocated : Nat
  num_allocations : Nat
  num_frees : Nat
  num_blocks : Nat
  largest_free_block : Nat
deriving DecidableEq, Repr

/-- `RTOSHeap`: the block chain in arena order plus the statistics. -/
structure RTOSHeap where
  blocks : List HeapBlock
  stats : HeapStats
deriving DecidableEq, Repr

/-- The `RTOSHeap(buffer, size)` constructor: one free block covering the
    arena minus its header, statistics seeded accordingly. -/
def mkHeap (size : Nat) : RTOSHeap :=
  { blocks := [{ bsize := subm size HEAP_HDR, is_free := true }]
    stats :=
      { total_size := size
        free_size := subm size HEAP_HDR
        allocated_size := 0
        peak_allocated := 0
        num_allocations := 0
        num_frees := 0
        num_blocks := 1
        largest_free_block := subm size HEAP_HDR } }

/-- `RTOSHeap::findFreeBlock`: index of the first free block whose payload
    fits `size` (first fit, walking the chain). -/
def findFreeIdx : List HeapBlock → Nat → Option Nat
  | [], _ => none
  | b :: rest, size =>
    if b.is_free ∧ size ≤ b.bsize then some 0
    else (findFreeIdx rest size).map (· + 1)

/-- `RTOSHeap::splitBlock`: if the remainder `block->size - size - HDR`
    (computed in wrapping `size_t`, exactly as the C++ does) is at least
    `MIN_BLOCK_SIZE`, shrink the block to `size` and insert a new free
    block behind it.  Returns the new chain and whether a split happened
    (the caller bumps `num_blocks`). -/
def splitBlock (bl : List HeapBlock) (i size : Nat) : List HeapBlock × Bool :=
  let b := bl.getD i default
  let remaining := subm (subm b.bsize size) HEAP_HDR
  if MIN_BLOCK_SIZE ≤ remaining then
    (bl.take i ++ { bsize := size, is_free := b.is_free } ::
       { bsize := remaining, is_free := true } :: bl.drop (i + 1), true)
  else (bl, false)

/-- The forward `while`-loop of `RTOSHeap::coalesceBlocks`: absorb the
    following blocks while they are free (`block->size += HDR + next->size`
    in wrapping `size_t`), counting absorbed blocks for `num_blocks`. -/
def coalesceForward : HeapBlock → List HeapBlock → HeapBlock × List HeapBlock × Nat
  | b, [] => (b, [], 0)
  | b, c :: rest =>
    if c.is_free then
      let r := coalesceForward { b with bsize := addm b.bsize (addm HEAP_HDR c.bsize) } rest
      (r.1, r.2.1, r.2.2 + 1)
    else (b, c :: rest, 0)

/-- Forward coalescing applied at chain index `i`. -/
def forwardMergeAt (bl : List HeapBlock) (i : Nat) : List HeapBlock × Nat :=
  match bl.drop i with
  | [] => (bl, 0)
  | b :: rest =>
    let r := coalesceForward b rest
    (bl.take i ++ r.1 :: r.2.1, r.2.2)

/-- `RTOSHeap::coalesceBlocks(&chain[i])`: nothing if block `i` is not
    free; otherwise merge forward, then recurse at the predecessor while it
    is free.  Returns the chain and the total number of merged-away blocks. -/
def coalesceAux : Nat → List HeapBlock → List HeapBlock × Nat
  | i, bl =>
    if (bl.getD i default).is_free then
      let r1 := forwardMergeAt bl i
      match i with
      | 0 => r1
      | j + 1 =>
        if (r1.1.getD j default).is_free then
          let r2 := coalesceAux j r1.1
          (r2.1, r1.2 + r2.2)
        else r1
    else (bl, 0)

/-- Byte offset from the arena start of the header of block `i`
    (pointer arithmetic, wrapping like the C++ address computation). -/
def blockAddrAux : List HeapBlock → Nat → Nat → Nat
  | _, 0, cur => cur
  | [], _ + 1, cur => cur
  | b :: rest, i + 1, cur => blockAddrAux rest i (addm cur (addm HEAP_HDR b.bsize))

/-- Header offset of block `i` in the chain. -/
def blockAddr (bl : List HeapBlock) (i : Nat) : Nat := blockAddrAux bl i 0

/-- Index of the block whose header sits at arena offset `a`, if any
    (`RTOSHeap::validateBlock` succeeds exactly on such offsets: every
    chained block carries the magic word and lies inside the arena). -/
def findBlockAt : List HeapBlock → Nat → Nat → Option Nat
  | [], _, _ => none
  | b :: rest, cur, a =>
    if cur = a then some 0
    else (findBlockAt rest (addm cur (addm HEAP_HDR b.bsize)) a).map (· + 1)

/-- The statistics update of `RTOSHeap::malloc` for a block of payload
    size `s`: count the allocation, move `s` bytes from free to allocated,
    track the peak, and count a fresh block when a split happened. -/
def mallocStats (st : HeapStats) (s : Nat) (didSplit : Bool) : HeapStats :=
  let alloc2 := addm st.allocated_size s
  { st with
    num_blocks := if didSplit then addm st.num_blocks 1 else st.num_blocks
    num_allocations := addm st.num_allocations 1
    allocated_size := alloc2
    free_size := subm st.free_size s
    peak_allocated := if st.peak_allocated < alloc2 then alloc2 else st.peak_allocated }

/-- `RTOSHeap::malloc`: returns the payload offset (or `none`) and the new
    heap.  Size 0 returns null untouched; the request is rounded up to the
    8-byte alignment with wrapping `size_t` arithmetic `(size + 7) & ~7`;
    first fit, split, mark allocated, update statistics. -/
def heapMalloc (h : RTOSHeap) (size : Nat) : Option Nat × RTOSHeap :=
  if size = 0 then (none, h)
  else
    let asize := ((size + 7) % W64) / 8 * 8
    match findFreeIdx h.blocks asize with
    | none => (none, h)
    | some i =>
      let sp := splitBlock h.blocks i asize
      let b := sp.1.getD i default
      let bl2 := sp.1.set i { b with is_free := false }
      (some (addm (blockAddr h.blocks i) HEAP_HDR),
        { blocks := bl2, stats := mallocStats h.stats b.bsize sp.2 })

/-- The statistics update of `RTOSHeap::free` for a block of payload size
    `s`: count the free and move `s` bytes from allocated to free (the
    `num_blocks` drop from coalescing is applied by the caller). -/
def freeStats (st : HeapStats) (s : Nat) : HeapStats :=
  { st with
    num_frees := addm st.num_frees 1
    allocated_size := subm st.allocated_size s
    free_size := addm st.free_size s }

/-- `RTOSHeap::free`: null returns untouched; the header offset is the
    payload offset minus `HEAP_HDR`; an offset that is not a chained
    header fails validation and returns; a free header is a double free
    and returns; otherwise mark free, update statistics, coalesce. -/
def heapFree (h : RTOSHeap) (p : Option Nat) : RTOSHeap :=
  match p with
  | none => h
  | some ptr =>
    match findBlockAt h.blocks 0 (subm ptr HEAP_HDR) with
    | none => h
    | some i =>
      let b := h.blocks.getD i default
      if b.is_free then h
      else
        let bl1 := h.blocks.set i { b with is_free := true }
        let r := coalesceAux i bl1
        { blocks := r.1,
          stats := { freeStats h.stats b.bsize with
                     num_blocks := subm h.stats.num_blocks r.2 } }

/-- `RTOSHeap::realloc`: null pointer = `malloc`; size 0 = `free` + null;
    an invalid pointer fails validation; a payload that already fits is
    returned unchanged; otherwise allocate new, copy, free old. -/
def heapRealloc (h : RTOSHeap) (p : Option Nat) (new_size : Nat) : Option Nat × RTOSHeap :=
  match p with
  | none => heapMalloc h new_size
  | some ptr =>
    if new_size = 0 then (none, heapFree h p)
    else
      match findBlockAt h.blocks 0 (subm ptr HEAP_HDR) with
      | none => (none, h)
      | some i =>
        let b := h.blocks.getD i default
        if new_size ≤ b.bsize then (some ptr, h)
        else
          match heapMalloc h new_size with
          | (none, h1) => (none, h1)
          | (some np, h1) => (some np, heapFree h1 (some ptr))

/-- One public heap operation of the claim: `malloc`, `free` or `realloc`
    with arbitrary argument (a pointer argument is an arbitrary offset). -/
inductive HeapOp where
  | mallocOp (n : Nat)
  | freeOp (p : Option Nat)
  | reallocOp (p : Option Nat) (n : Nat)
deriving DecidableEq, Repr

/-- Apply one heap operation, keeping only the state. -/
def applyHeapOp (h : RTOSHeap) : HeapOp → RTOSHeap
  | .mallocOp n => (heapMalloc h n).2
  | .freeOp p => heapFree h p
  | .reallocOp p n => (heapRealloc h p n).2

/-- Apply a sequence of heap operations. -/
def runHeapOps (ops : List HeapOp) (h : RTOSHeap) : RTOSHeap :=
  ops.foldl applyHeapOp h

/-- The statistics identity the code actually maintains (stated over the
    wrapping `size_t` values that `getStats` returns). -/
def heapStatsAccounted (h : RTOSHeap) : Prop :=
  addm (addm h.stats.free_size h.stats.allocated_size) HEAP_HDR = h.stats.total_size

instance (h : RTOSHeap) : Decidable (heapStatsAccounted h) := by
  unfold heapStatsAccounted; infer_instance

/- ===================== Timers (kernel/timer.cpp) ======================== -/

/-- `TimerType` from src/rtos/kernel/timer.h. -/
inductive TimerType where
  | oneShot
  | periodic
deriving DecidableEq, Repr

/-- `TimerState` from src/rtos/kernel/timer.h. -/
inductive TimerState where
  | stopped
  | running
  | expired
deriving DecidableEq, Repr

/-- `TimerCB` from src/rtos/kernel/timer.h; `handle`, `period_ticks`,
    `remaining_ticks` and `expiry_count` are `uint32_t` values,
    `has_callback` tells whether the callback pointer is non-null (the
    callback body is outside the model; `TimerManager::executeCallback`
    counts its invocations). -/
structure TimerCB where
  handle : Nat
  ttype : TimerType
  state : TimerState
  period_ticks : Nat
  remaining_ticks : Nat
  has_callback : Bool
  auto_reload : Bool
  expiry_count : Nat
deriving DecidableEq, Repr

/-- The slot initialisation done by `TimerManager::createTimer` for a
    fresh timer of the given handle, period and type (`auto_reload` is set
    iff the type is periodic; the state starts STOPPED). -/
def mkTimer (h period : Nat) (t : TimerType) (hasCb : Bool) : TimerCB :=
  { handle := h
    ttype := t
    state := .stopped
    period_ticks := period
    remaining_ticks := period
    has_callback := hasCb
    auto_reload := t = .periodic
    expiry_count := 0 }

/-- `TimerManager::startTimer` applied to a found timer: a RUNNING timer
    is left as is; otherwise state := RUNNING and remaining := period. -/
def startTimerCB (t : TimerCB) : TimerCB :=
  if t.state = .running then t
  else { t with state := .running, remaining_ticks := t.period_ticks }

/-- The per-slot body of `TimerManager::tick`: skip empty or non-RUNNING
    slots; decrement `remaining_ticks` if positive; on reaching zero bump
    `expiry_count`, execute the callback (second component: number of
    callback invocations; third: missed callbacks), then reload a
    periodic timer or stop a one-shot. -/
def tickCB (t : TimerCB) : TimerCB × Nat × Nat :=
  if t.handle = 0 ∨ ¬ t.state = .running then (t, 0, 0)
  else
    let r := if 0 < t.remaining_ticks then t.remaining_ticks - 1 else t.remaining_ticks
    if r = 0 then
      let t1 := { t with remaining_ticks := r, expiry_count := addm32 t.expiry_count 1 }
      let t2 :=
        if t1.auto_reload then { t1 with remaining_ticks := t1.period_ticks }
        else { t1 with state := .stopped }
      (t2, if t.has_callback then 1 else 0, if t.has_callback then 0 else 1)
    else ({ t with remaining_ticks := r }, 0, 0)

/-- The timer table with the manager's callback counters
    (`total_callbacks`, `missed_callbacks`, both `uint32_t`). -/
structure TimerMgr where
  timers : List TimerCB
  total_callbacks : Nat
  missed_callbacks : Nat
deriving DecidableEq, Repr

/-- Process every slot in order, as the `for` loop of
    `TimerManager::tick` does, accumulating callback counts. -/
def mgrTickGo : List TimerCB → List TimerCB × Nat × Nat
  | [] => ([], 0, 0)
  | t :: rest =>
    let r1 := tickCB t
    let r2 := mgrTickGo rest
    (r1.1 :: r2.1, r1.2.1 + r2.2.1, r1.2.2 + r2.2.2)

/-- `TimerManager::tick`. -/
def mgrTick (m : TimerMgr) : TimerMgr :=
  let r := mgrTickGo m.timers
  { timers := r.1
    total_callbacks := addm32 m.total_callbacks r.2.1
    missed_callbacks := addm32 m.missed_callbacks r.2.2 }

/-- `n` consecutive timer ticks. -/
def mgrTickN : Nat → TimerMgr → TimerMgr
  | 0, m => m
  | n + 1, m => mgrTickN n (mgrTick m)

/- ===================== Scheduler (kernel/scheduler.cpp) ================= -/

/-- `SchedulerPolicy` from src/rtos/kernel/scheduler.h. -/
inductive SchedPolicy where
  | roundRobin
  | prioritySched
  | cooperative
deriving DecidableEq, Repr

/-- `TaskControlBlock` from src/rtos/kernel/task.h, reduced to the fields
    the scheduler algorithms read: state, priority (as the numeric value
    of the `TaskPriority` enum, IDLE = 0 … REALTIME = 4), remaining time
    slice, wake tick, run counter.  Name, id, stack fields and the unused
    `next_task`/`total_runtime` are dropped. -/
structure TCB where
  state : TaskState
  priority : Nat
  time_slice : Nat
  blocked_until : Nat
  run_count : Nat
deriving DecidableEq, Repr, Inhabited

/-- The `Scheduler` singleton state.  `tcbs` holds every task control
    block, index 0 being the builtin `idle_task_tcb`; `task_list` holds
    the indices registered through `addTask` (never 0: the idle task is a
    member object, not an element of `task_list`); `current` is the
    `current_task` pointer.  `is_init` renders `is_initialized`. -/
structure SchedState where
  tcbs : List TCB
  task_list : List Nat
  current : Option Nat
  is_running : Bool
  is_init : Bool
  policy : SchedPolicy
  tick_count : Nat
  time_slice_ticks : Nat
deriving DecidableEq, Repr

/-- Dereference a TCB pointer. -/
def SchedState.tcb (s : SchedState) (i : Nat) : TCB := s.tcbs.getD i default

/-- Store through a TCB pointer. -/
def SchedState.setTcb (s : SchedState) (i : Nat) (t : TCB) : SchedState :=
  { s with tcbs := s.tcbs.set i t }

/-- The `Scheduler()` constructor: no tasks, no current task, not running,
    not initialised, ROUND_ROBIN, tick 0, slice 10.  The idle TCB's fields
    are uninitialised memory until `initialize` runs, so the constructor
    is parametrised by its arbitrary contents. -/
def mkScheduler (idle0 : TCB) : SchedState :=
  { tcbs := [idle0]
    task_list := []
    current := none
    is_running := false
    is_init := false
    policy := .roundRobin
    tick_count := 0
    time_slice_ticks := 10 }

/-- First `for` loop of `Scheduler::selectNextTask` (ROUND_ROBIN): find
    the first READY task strictly after the current one in registration
    order (`found` is `found_current`; the element equal to `current_task`
    is skipped without a READY check, as the `continue` does). -/
def findAfterCur (s : SchedState) : List Nat → Bool → Option Nat
  | [], _ => none
  | i :: rest, found =>
    if s.current = some i then findAfterCur s rest true
    else if found ∧ (s.tcb i).state = .ready then some i
    else findAfterCur s rest found

/-- Second `for` loop of `Scheduler::selectNextTask` (ROUND_ROBIN): wrap
    around from the start, returning the first READY task, stopping after
    reaching the current one. -/
def findWrap (s : SchedState) : List Nat → Option Nat
  | [] => none
  | i :: rest =>
    if (s.tcb i).state = .ready then some i
    else if s.current = some i then none
    else findWrap s rest

/-- The PRIORITY branch of `Scheduler::selectNextTask`: scan the task
    list keeping the first READY task whose priority strictly exceeds the
    best so far, starting from PRIORITY_IDLE (= 0). -/
def selPrioGo (s : SchedState) : List Nat → Nat → Option Nat → Option Nat
  | [], _, best => best
  | i :: rest, hp, best =>
    if (s.tcb i).state = .ready ∧ hp < (s.tcb i).priority then
      selPrioGo s rest (s.tcb i).priority (some i)
    else selPrioGo s rest hp best

/-- `Scheduler::selectNextTask`: ROUND_ROBIN uses the two loops above,
    PRIORITY the strict-max scan; any other policy (COOPERATIVE has no
    branch in the source) falls through to the builtin idle task, index 0. -/
def selectNextTask (s : SchedState) : Nat :=
  match s.policy with
  | .roundRobin =>
    match findAfterCur s s.task_list false with
    | some i => i
    | none =>
      match findWrap s s.task_list with
      | some i => i
      | none => 0
  | .prioritySched =>
    match selPrioGo s s.task_list 0 none with
    | some i => i
    | none => 0
  | .cooperative => 0

/-- `Scheduler::switchContext`: demote the previous task to READY if it
    was RUNNING, promote `next` to RUNNING with a fresh time slice and a
    bumped run counter (`uint32_t`), and make it current. -/
def switchContext (s : SchedState) (next : Nat) : SchedState :=
  let s1 : SchedState :=
    match s.current with
    | some p => if (s.tcb p).state = .running then s.setTcb p { s.tcb p with state := .ready } else s
    | none => s
  let t := s1.tcb next
  let s2 := s1.setTcb next
    { t with state := .running, run_count := addm32 t.run_count 1, time_slice := s1.time_slice_ticks }
  { s2 with current := some next }

/-- `Scheduler::yield`: nothing unless running; select the next task and
    switch only if it differs from the current one. -/
def schedYield (s : SchedState) : SchedState :=
  if s.is_running then
    let n := selectNextTask s
    if s.current = some n then s else switchContext s n
  else s

/-- `Scheduler::initialize`: fails (unchanged) when already initialised;
    otherwise set the policy, zero the tick counter and initialise the
    idle task TCB (`initializeIdleTask`: state READY, priority IDLE,
    slice `time_slice_ticks`). -/
def schedInit (s : SchedState) (p : SchedPolicy) : SchedState :=
  if s.is_init then s
  else
    let s1 := { s with policy := p, tick_count := 0 }
    let idle := s1.tcb 0
    let s2 := s1.setTcb 0 { idle with state := .ready, priority := 0, time_slice := s1.time_slice_ticks }
    { s2 with is_init := true }

/-- `Scheduler::addTask` as reached from `Task::create`: fails (unchanged)
    when `MAX_TASKS` (16) registrations exist; otherwise append a fresh
    READY TCB of the given priority with a full time slice. -/
def schedAddTask (s : SchedState) (prio : Nat) : SchedState :=
  if 16 ≤ s.task_list.length then s
  else
    let idx := s.tcbs.length
    { s with
      tcbs := s.tcbs ++ [{ state := .ready, priority := prio, time_slice := s.time_slice_ticks,
                           blocked_until := 0, run_count := 0 }]
      task_list := s.task_list ++ [idx] }

/-- `Scheduler::start`: nothing unless initialised; set running, select
    the first task, make it current and RUNNING (directly, not through
    `switchContext`).  The previously current task is not demoted. -/
def schedStart (s : SchedState) : SchedState :=
  if s.is_init then
    let s1 := { s with is_running := true }
    let n := selectNextTask s1
    let s2 := { s1 with current := some n }
    s2.setTcb n { s2.tcb n with state := .running }
  else s

/-- One step of the wake loop of `Scheduler::tick`: a BLOCKED task whose
    `blocked_until` has been reached by `tick_count` becomes READY. -/
def wakeOne (s : SchedState) (i : Nat) : SchedState :=
  let t := s.tcb i
  if t.state = .blocked ∧ t.blocked_until ≤ s.tick_count then
    s.setTcb i { t with state := .ready }
  else s

/-- The wake loop over the task list. -/
def wakeList (s : SchedState) : List Nat → SchedState
  | [] => s
  | i :: rest => wakeList (wakeOne s i) rest

/-- `Scheduler::tick`: bump the tick counter (`uint32_t`), decrement the
    current task's time slice and yield when it reaches zero, then wake
    delay-expired BLOCKED tasks. -/
def schedTick (s : SchedState) : SchedState :=
  let s1 := { s with tick_count := addm32 s.tick_count 1 }
  let s2 :=
    match s1.current with
    | some c =>
      if 0 < (s1.tcb c).time_slice then
        let s' := s1.setTcb c { s1.tcb c with time_slice := (s1.tcb c).time_slice - 1 }
        if (s'.tcb c).time_slice = 0 then schedYield s' else s'
      else s1
    | none => s1
  wakeList s2 s2.task_list

/-- `Scheduler::delay`: nothing without a current task or before `start`;
    `delay(0)` is `yield`; otherwise block the current task until
    `tick_count + ticks` (`uint32_t` sum) and yield. -/
def schedDelay (s : SchedState) (ticks : Nat) : SchedState :=
  match s.current with
  | none => s
  | some c =>
    if s.is_running then
      if ticks = 0 then schedYield s
      else
        let s1 := s.setTcb c
          { s.tcb c with state := .blocked, blocked_until := addm32 s.tick_count ticks }
        schedYield s1
    else s

/-- `n` consecutive scheduler ticks. -/
def schedTickN : Nat → SchedState → SchedState
  | 0, s => s
  | n + 1, s => schedTickN n (schedTick s)

/-- `Task::suspend` on a valid handle: DELETED tasks are rejected;
    otherwise mark SUSPENDED and yield when suspending the current task.
    (An index outside the table corresponds to an invalid pointer and is
    left as a no-op.) -/
def schedSuspend (s : SchedState) (i : Nat) : SchedState :=
  if i < s.tcbs.length then
    if (s.tcb i).state = .deleted then s
    else
      let s1 := s.setTcb i { s.tcb i with state := .suspended }
      if s1.current = some i then schedYield s1 else s1
  else s

/-- `Task::resume`: only a SUSPENDED task becomes READY. -/
def schedResume (s : SchedState) (i : Nat) : SchedState :=
  if i < s.tcbs.length ∧ (s.tcb i).state = .suspended then
    s.setTcb i { s.tcb i with state := .ready }
  else s

/-- `Scheduler::removeTask`: if the task is registered, mark it DELETED
    and erase its first occurrence from the task list. -/
def schedRemove (s : SchedState) (i : Nat) : SchedState :=
  if i ∈ s.task_list then
    let s1 := s.setTcb i { s.tcb i with state := .deleted }
    { s1 with task_list := s1.task_list.erase i }
  else s

/-- One scheduler-facing operation of claim C1. -/
inductive SchedOp where
  | opInit (p : SchedPolicy)
  | opAdd (prio : Nat)
  | opStart
  | opYield
  | opTick
  | opDelay (d : Nat)
  | opSuspend (i : Nat)
  | opResume (i : Nat)
  | opRemove (i : Nat)
deriving DecidableEq, Repr

/-- Apply one scheduler operation. -/
def applySchedOp (s : SchedState) : SchedOp → SchedState
  | .opInit p => schedInit s p
  | .opAdd prio => schedAddTask s prio
  | .opStart => schedStart s
  | .opYield => schedYield s
  | .opTick => schedTick s
  | .opDelay d => schedDelay s d
  | .opSuspend i => schedSuspend s i
  | .opResume i => schedResume s i
  | .opRemove i => schedRemove s i

/-- Apply a sequence of scheduler operations. -/
def runSchedOps (ops : List SchedOp) (s : SchedState) : SchedState :=
  ops.foldl applySchedOp s

/-- Number of `start` calls in a sequence. -/
def countStart (ops : List SchedOp) : Nat :=
  ops.countP (fun op => match op with | .opStart => true | _ => false)

/-- Every RUNNING task control block is the current task. -/
def RunInv (s : SchedState) : Prop :=
  ∀ i, i < s.tcbs.length → (s.tcb i).state = .running → s.current = some i

/-- Before `start`, only the (still uninitialised) idle TCB can hold the
    RUNNING value, and only while `initialize` has not yet run. -/
def PreInv (s : SchedState) : Prop :=
  ∀ i, i < s.tcbs.length → (s.tcb i).state = .running → i = 0 ∧ s.is_init = false

/-- The scheduler invariant: after `start`, every RUNNING TCB is current;
    before `start`, at most the raw idle TCB is RUNNING. -/
def SchedInv (s : SchedState) : Prop :=
  (s.is_running = true → RunInv s) ∧ (s.is_running = false → PreInv s)

/-- At most one task control block (idle included) is RUNNING. -/
def atMostOneRunning (s : SchedState) : Prop :=
  ∀ i ∈ List.range s.tcbs.length, ∀ j ∈ List.range s.tcbs.length,
    (s.tcb i).state = .running → (s.tcb j).state = .running → i = j

instance (s : SchedState) : Decidable (atMostOneRunning s) := by
  unfold atMostOneRunning; infer_instance

/- ======================================================================== -/
/- Theorems                                                                 -/
/- ======================================================================== -/

/- ---- modular arithmetic helpers ---- -/

theorem addm_lt (a b : Nat) : addm a b < W64 := by
  unfold addm W64; omega

theorem addm_subm_addm (a b s c : Nat) :
    addm (addm (subm a s) (addm b s)) c = addm (addm a b) c := by
  unfold addm subm W64
  omega

theorem addm_addm_subm (a b s c : Nat) :
    addm (addm (addm a s) (subm b s)) c = addm (addm a b) c := by
  unfold addm subm W64
  omega

/- ---- C10: malloc(0) and free(null) ---- -/

/-- C10: `malloc(0)` returns the null pointer with the block chain and
    every statistics field unchanged, and `free(null)` returns without
    modifying the block chain or any statistics field. -/
theorem c10_malloc_zero_free_null (h : RTOSHeap) :
    heapMalloc h 0 = (none, h) ∧ heapFree h none = h := by
  exact ⟨rfl, rfl⟩

/- ---- C7: semaphore take/give ---- -/

/-- C7: non-blocking `take` (timeout 0) decrements and returns OK exactly
    when `count > 0`, else returns ERR_BUSY with the state unchanged;
    `give` increments and returns OK exactly when `count < max_count`,
    else returns ERR_FULL with the state unchanged; consequently
    `0 ≤ count ≤ max_count` holds after either operation whenever it held
    before. -/
theorem c7_semaphore_take_give (s : Semaphore) (hmax : s.count ≤ s.max_count) :
    (0 < s.count → semTake0 s = (.ok, { s with count := s.count - 1 })) ∧
    (s.count = 0 → semTake0 s = (.errBusy, s)) ∧
    (s.count < s.max_count → semGive s = (.ok, { s with count := s.count + 1 })) ∧
    (s.max_count ≤ s.count → semGive s = (.errFull, s)) ∧
    (semTake0 s).2.count ≤ (semTake0 s).2.max_count ∧
    (semGive s).2.count ≤ (semGive s).2.max_count := by
  unfold semTake0 semGive
  refine ⟨fun h1 => by simp [h1], fun h0 => by simp [h0], fun hlt => ?_, fun hge => ?_, ?_, ?_⟩
  · simp [Nat.not_le.mpr hlt]
  · simp [hge]
  · split <;> simp <;> omega
  · split <;> simp <;> omega

/-- Witness for C7 at a counting semaphore with `count = 2`, `max = 5`. -/
theorem c7_semaphore_take_give_witness :
    (Semaphore.mk .counting 2 5).count ≤ (Semaphore.mk .counting 2 5).max_count ∧
    (semGive (Semaphore.mk .counting 2 5)).2.count ≤ 5 :=
  ⟨by decide, (c7_semaphore_take_give (Semaphore.mk .counting 2 5) (by decide)).2.2.2.2.2⟩

/- ---- C3: mutex release performs no FIFO hand-off ---- -/

/-- C3 (failing evaluation): with the mutex held by task 1 (while task 2
    is "blocked" in `lock`, which in the source merely spin-yields and
    leaves no trace in the mutex), `unlock` by task 1 resets the mutex to
    completely unowned — no waiter is promoted — and an immediately
    following `lock` by task 3 succeeds and makes task 3 the holder, so
    the FIFO head waiter does not acquire the mutex atomically with the
    release. -/
theorem c3_mutex_unlock_no_handoff :
    (mutexUnlock (mutexLock0 mutexMk (some 1)).2 (some 1)).2 =
      { is_locked := false, owner := none, waiting_list_head := none, recursive_count := 0 } ∧
    (mutexLock0 (mutexUnlock (mutexLock0 mutexMk (some 1)).2 (some 1)).2 (some 3)).1 = .ok ∧
    (mutexLock0 (mutexUnlock (mutexLock0 mutexMk (some 1)).2 (some 1)).2 (some 3)).2.owner
      = some 3 := by
  decide

/- ---- C6: COOPERATIVE policy is not implemented ---- -/

/-- C6 (failing evaluation): under the COOPERATIVE policy, after
    `initialize(COOPERATIVE)`, one `addTask` and `start`, the builtin idle
    task is RUNNING (the policy has no branch in `selectNextTask`, so the
    user task never runs) and a single `tick` decrements the RUNNING
    task's time slice from 10 to 9 — a state change outside the claim's
    allowed set.  Moreover, on a state where a user task is RUNNING with
    one slice tick left under COOPERATIVE, `tick` preempts it: the task
    is demoted to READY and the idle task becomes current. -/
theorem c6_cooperative_tick_not_transparent :
    (let s := runSchedOps [.opInit .cooperative, .opAdd 2, .opStart] (mkScheduler default)
     s.current = some 0 ∧ (s.tcb 0).state = .running ∧ (s.tcb 0).time_slice = 10 ∧
       (s.tcb 1).state = .ready ∧ ((schedTick s).tcb 0).time_slice = 9) ∧
    (let s2 : SchedState :=
      { tcbs := [⟨.ready, 0, 10, 0, 0⟩, ⟨.running, 2, 1, 0, 0⟩], task_list := [1],
        current := some 1, is_running := true, is_init := true, policy := .cooperative,
        tick_count := 0, time_slice_ticks := 10 }
     (schedTick s2).current = some 0 ∧ ((schedTick s2).tcb 1).state = .ready ∧
       ((schedTick s2).tcb 0).state = .running) := by
  decide

/- ---- C4: heap statistics identity ---- -/

/-- C4 (counterexample): on the freshly constructed heap over a 1024-byte
    arena — no operation performed yet — `getStats` reports
    `total_size = 1024` but `free_size + allocated_size = 984 + 0`:
    the claimed identity `total = free + allocated` fails because the
    block headers are counted in `total_size` only. -/
theorem c4_fresh_heap_stats_gap :
    (mkHeap 1024).stats.total_size ≠
      (mkHeap 1024).stats.free_size + (mkHeap 1024).stats.allocated_size := by
  decide

theorem mallocStats_accounted (st : HeapStats) (s : Nat) (d : Bool)
    (hh : addm (addm st.free_size st.allocated_size) HEAP_HDR = st.total_size) :
    addm (addm (mallocStats st s d).free_size (mallocStats st s d).allocated_size) HEAP_HDR
      = (mallocStats st s d).total_size :=
  (addm_subm_addm st.free_size st.allocated_size s HEAP_HDR).trans hh

theorem freeStats_accounted (st : HeapStats) (s : Nat)
    (hh : addm (addm st.free_size st.allocated_size) HEAP_HDR = st.total_size) :
    addm (addm (freeStats st s).free_size (freeStats st s).allocated_size) HEAP_HDR
      = (freeStats st s).total_size :=
  (addm_addm_subm st.free_size st.allocated_size s HEAP_HDR).trans hh

theorem heapMalloc_accounted (h : RTOSHeap) (n : Nat) (hh : heapStatsAccounted h) :
    heapStatsAccounted (heapMalloc h n).2 := by
  unfold heapMalloc
  split
  · exact hh
  · dsimp only
    split
    · exact hh
    · exact mallocStats_accounted h.stats _ _ hh

theorem heapFree_accounted (h : RTOSHeap) (p : Option Nat) (hh : heapStatsAccounted h) :
    heapStatsAccounted (heapFree h p) := by
  unfold heapFree
  split
  · exact hh
  · split
    · exact hh
    · dsimp only
      split
      · exact hh
      · exact freeStats_accounted h.stats _ hh

theorem heapRealloc_accounted (h : RTOSHeap) (p : Option Nat) (n : Nat)
    (hh : heapStatsAccounted h) : heapStatsAccounted (heapRealloc h p n).2 := by
  unfold heapRealloc
  split
  · exact heapMalloc_accounted h n hh
  · split
    · exact heapFree_accounted h _ hh
    · split
      · exact hh
      · split
        next h1 heq =>
          dsimp only
          split
          · exact hh
          · have hx := heapMalloc_accounted h n hh
            rw [heq] at hx
            exact hx
        next np h1 heq =>
          dsimp only
          split
          · exact hh
          · have hx := heapMalloc_accounted h n hh
            rw [heq] at hx
            exact heapFree_accounted h1 _ hx

theorem runHeapOps_accounted (ops : List HeapOp) (h : RTOSHeap)
    (hh : heapStatsAccounted h) : heapStatsAccounted (runHeapOps ops h) := by
  induction ops generalizing h with
  | nil => exact hh
  | cons op rest ih =>
    cases op with
    | mallocOp n => exact ih _ (heapMalloc_accounted h n hh)
    | freeOp p => exact ih _ (heapFree_accounted h p hh)
    | reallocOp p n => exact ih _ (heapRealloc_accounted h p n hh)

/-- C4 (amended): after every sequence of `malloc`, `free` and `realloc`
    operations — including the freshly constructed heap — the statistics
    satisfy `free_size + allocated_size + sizeof(HeapBlock) = total_size`
    (the sums taken in the wrapping `size_t` arithmetic the fields are
    stored in): one block header is what the original identity misses. -/
theorem c4_heap_stats_accounted (size : Nat) (ops : List HeapOp) (hsize : size < W64) :
    heapStatsAccounted (runHeapOps ops (mkHeap size)) := by
  apply runHeapOps_accounted
  unfold heapStatsAccounted mkHeap addm subm
  simp only []
  unfold W64 at *
  omega

/-- Witness for C4 at a 1024-byte arena and a malloc/free/realloc mix. -/
theorem c4_heap_stats_accounted_witness :
    1024 < W64 ∧
    heapStatsAccounted (runHeapOps
      [.mallocOp 100, .mallocOp 200, .freeOp (some 40), .reallocOp (some 188) 500,
       .freeOp none, .mallocOp 0, .freeOp (some 7)] (mkHeap 1024)) :=
  ⟨by decide, c4_heap_stats_accounted 1024 _ (by decide)⟩

/- ---- C1 (counterexample): a second start breaks the invariant ---- -/

/-- C1 (counterexample): the operation sequence `initialize(ROUND_ROBIN);
    addTask; addTask; start; start` is a sequence of the claim's
    operations after which task 1 and task 2 are both in state RUNNING:
    `start` assigns `current_task` and makes it RUNNING without demoting
    the previously running task. -/
theorem c1_double_start_two_running :
    ¬ atMostOneRunning
        (runSchedOps [.opInit .roundRobin, .opAdd 2, .opAdd 2, .opStart, .opStart]
          (mkScheduler default)) := by
  decide

/- ---- C2 (counterexample): 32-bit wrap of the wake tick ---- -/

/-- C2 (counterexample): a task that is RUNNING at tick counter T = 1 and
    calls `delay(D)` with D = 2^32 - 1 is READY again after a single tick:
    `blocked_until = T + D` is computed in `uint32_t` and wraps to 0, so
    the very next tick (counter 2 ≥ 0) wakes the task even though
    1 < D — the claim requires it to still be BLOCKED there. -/
theorem c2_delay_wraps_early_wake :
    (let s1 := runSchedOps [.opInit .roundRobin, .opAdd 2, .opStart, .opTick]
                 (mkScheduler default)
     s1.current = some 1 ∧ (s1.tcb 1).state = .running ∧ s1.tick_count = 1) ∧
    (let s2 := runSchedOps
                 [.opInit .roundRobin, .opAdd 2, .opStart, .opTick, .opDelay 4294967295]
                 (mkScheduler default)
     (s2.tcb 1).state = .blocked ∧ (s2.tcb 1).blocked_until = 0) ∧
    (let s3 := runSchedOps
                 [.opInit .roundRobin, .opAdd 2, .opStart, .opTick, .opDelay 4294967295,
                  .opTick] (mkScheduler default)
     (s3.tcb 1).state = .ready ∧ s3.tick_count = 2) ∧
    (1 : Nat) < 4294967295 := by
  decide

/- ---- C5 (counterexample): no rotation among equal priorities ---- -/

/-- C5 (counterexample): under PRIORITY with three READY tasks 1, 2, 3 of
    equal priority NORMAL, successive selections pick task 1 (`start`),
    then task 2 (first `yield`), then task 1 again (second `yield`) while
    task 3 is READY throughout — instead of rotating through the three
    tasks in registration order, the scheduler always returns the
    earliest-registered READY task of the top priority, starving task 3. -/
theorem c5_priority_no_rotation :
    (let s0 := runSchedOps [.opInit .prioritySched, .opAdd 2, .opAdd 2, .opAdd 2, .opStart]
                 (mkScheduler default)
     s0.current = some 1 ∧ (s0.tcb 3).state = .ready) ∧
    (let s1 := runSchedOps [.opInit .prioritySched, .opAdd 2, .opAdd 2, .opAdd 2, .opStart,
                  .opYield] (mkScheduler default)
     s1.current = some 2 ∧ (s1.tcb 3).state = .ready) ∧
    (let s2 := runSchedOps [.opInit .prioritySched, .opAdd 2, .opAdd 2, .opAdd 2, .opStart,
                  .opYield, .opYield] (mkScheduler default)
     s2.current = some 1 ∧ (s2.tcb 3).state = .ready) := by
  decide

/- ---- C9: ring buffer ---- -/
theorem list_getD_set_self {α} [Inhabited α] (l : List α) (i : Nat) (a : α)
    (h : i < l.length) : (l.set i a).getD i default = a := by
  induction l generalizing i with
  | nil => simp at h
  | cons x xs ih =>
    cases i with
    | zero => simp
    | succ j =>
      have h' : j < xs.length := by simpa using h
      simpa using ih j h'

theorem list_getD_set_ne {α} [Inhabited α] (l : List α) (i j : Nat) (a : α)
    (h : ¬ i = j) : (l.set i a).getD j default = l.getD j default := by
  induction l generalizing i j with
  | nil => rfl
  | cons x xs ih =>
    cases i with
    | zero =>
      cases j with
      | zero => exact absurd rfl h
      | succ jj => simp
    | succ ii =>
      cases j with
      | zero => simp
      | succ jj => simpa using ih ii jj (by omega)

theorem list_map_congr_mem {α β} (l : List α) (f g : α → β)
    (h : ∀ a ∈ l, f a = g a) : l.map f = l.map g := by
  induction l with
  | nil => rfl
  | cons x xs ih =>
    simp only [List.map_cons]
    rw [h x (List.mem_cons_self x xs), ih (fun a ha => h a (List.mem_cons_of_mem x ha))]

theorem mod_window_ne (head i count cap : Nat) (hi : i < count) (hcnt : count < cap) :
    ¬ (head + i) % cap = (head + count) % cap := by
  intro h
  have h2 : cap ∣ (head + count) - (head + i) := (Nat.modEq_iff_dvd' (by omega)).mp h
  have h3 : (head + count) - (head + i) = count - i := by omega
  rw [h3] at h2
  have h4 := Nat.le_of_dvd (by omega) h2
  omega

theorem enqueue_notFull {α} [Inhabited α] (q : RQueue α) (x : α)
    (hfull : q.count < q.cap) (hinv : q.Inv) :
    (q.enqueue x).1 = true ∧ (q.enqueue x).2.Inv ∧
    (q.enqueue x).2.count = q.count + 1 ∧ (q.enqueue x).2.cap = q.cap ∧
    (q.enqueue x).2.toModel = q.toModel ++ [x] := by
  obtain ⟨hh, hc, ht⟩ := hinv
  have hcap0 : 0 < q.cap := by omega
  have hnot : ¬ (q.isFull = true) := by
    simp only [RQueue.isFull, decide_eq_true_eq]
    omega
  have henq : q.enqueue x =
      (true, RQueue.mk (q.buffer.set q.tail x) q.head ((q.tail + 1) % q.cap) (q.count + 1)) := by
    unfold RQueue.enqueue
    rw [if_neg hnot]
  rw [henq]
  simp only [RQueue.Inv, RQueue.toModel, RQueue.cap, List.length_set]
  simp only [RQueue.cap] at hh hc ht hfull hcap0
  refine ⟨trivial, ⟨hh, by omega, ?_⟩, trivial, trivial, ?_⟩
  · rw [ht, Nat.mod_add_mod, Nat.add_assoc]
  · rw [List.range_succ, List.map_append]
    congr 1
    · apply list_map_congr_mem
      intro i hi
      have hi' : i < q.count := List.mem_range.mp hi
      apply list_getD_set_ne
      rw [ht]
      exact fun hcontra => mod_window_ne q.head i q.count q.buffer.length hi' hfull hcontra.symm
    · simp only [List.map_cons, List.map_nil]
      congr 1
      rw [← ht]
      exact list_getD_set_self _ _ _ (by rw [ht]; exact Nat.mod_lt _ hcap0)

theorem dequeue_notEmpty {α} [Inhabited α] (q : RQueue α)
    (hne : 0 < q.count) (hinv : q.Inv) :
    (q.dequeue).1 = some (q.buffer.getD q.head default) ∧
    (q.dequeue).2.Inv ∧ (q.dequeue).2.count = q.count - 1 ∧
    (q.dequeue).2.cap = q.cap ∧
    q.toModel = q.buffer.getD q.head default :: (q.dequeue).2.toModel := by
  obtain ⟨hh, hc, ht⟩ := hinv
  have hcap0 : 0 < q.cap := by omega
  have hnot : ¬ (q.isEmpty = true) := by
    simp only [RQueue.isEmpty, beq_iff_eq]
    omega
  have hdeq : q.dequeue =
      (some (q.buffer.getD q.head default),
       RQueue.mk q.buffer ((q.head + 1) % q.cap) q.tail (q.count - 1)) := by
    unfold RQueue.dequeue
    rw [if_neg hnot]
  rw [hdeq]
  simp only [RQueue.Inv, RQueue.toModel, RQueue.cap] at *
  refine ⟨trivial, ⟨Nat.mod_lt _ hcap0, by omega, ?_⟩, trivial, trivial, ?_⟩
  · rw [Nat.mod_add_mod, ht]
    congr 1
    omega
  · have hcount : q.count = (q.count - 1) + 1 := by omega
    rw [hcount, List.range_succ_eq_map, List.map_cons, List.map_map]
    congr 1
    · have hmod : q.head % q.buffer.length = q.head := Nat.mod_eq_of_lt hh
      rw [Nat.add_zero, hmod]
    · apply list_map_congr_mem
      intro i _
      show q.buffer.getD ((q.head + (i + 1)) % q.buffer.length) default
        = q.buffer.getD (((q.head + 1) % q.buffer.length + i) % q.buffer.length) default
      rw [Nat.mod_add_mod]
      congr 2
      omega

theorem enqueueAll_spec {α} [Inhabited α] (xs : List α) (q : RQueue α)
    (hinv : q.Inv) (hlen : q.count + xs.length ≤ q.cap) :
    (q.enqueueAll xs).1 = true ∧ (q.enqueueAll xs).2.Inv ∧
    (q.enqueueAll xs).2.count = q.count + xs.length ∧
    (q.enqueueAll xs).2.cap = q.cap ∧
    (q.enqueueAll xs).2.toModel = q.toModel ++ xs := by
  induction xs generalizing q with
  | nil => exact ⟨rfl, hinv, by simp [RQueue.enqueueAll], rfl, by simp [RQueue.enqueueAll]⟩
  | cons x rest ih =>
    have hfull : q.count < q.cap := by
      simp only [List.length_cons] at hlen
      omega
    obtain ⟨h1, h2, h3, h4, h5⟩ := enqueue_notFull q x hfull hinv
    obtain ⟨g1, g2, g3, g4, g5⟩ := ih (q.enqueue x).2 h2 (by
      rw [h3, h4]
      simp only [List.length_cons] at hlen
      omega)
    simp only [RQueue.enqueueAll]
    refine ⟨by simp [h1, g1], g2, ?_, by rw [g4, h4], ?_⟩
    · rw [g3, h3, List.length_cons]
      omega
    · rw [g5, h5, List.append_assoc]
      rfl

theorem dequeueN_all {α} [Inhabited α] (k : Nat) (q : RQueue α)
    (hinv : q.Inv) (hcnt : q.count = k) :
    (RQueue.dequeueN k q).1 = q.toModel := by
  induction k generalizing q with
  | zero =>
    simp [RQueue.dequeueN, RQueue.toModel, hcnt]
  | succ kk ih =>
    have hne : 0 < q.count := by omega
    obtain ⟨d1, d2, d3, d4, d5⟩ := dequeue_notEmpty q hne hinv
    have ihh := ih (q.dequeue).2 d2 (by omega)
    simp only [RQueue.dequeueN, d1]
    rw [ihh]
    exact d5.symm

/-- C9: for a ring buffer of capacity N, `enqueue` on a full ring returns
    false and leaves the state (hence the size) unchanged; `dequeue` on an
    empty ring fails and leaves the state unchanged; and `k ≤ N` enqueues
    on the freshly constructed (empty) ring followed by `k` dequeues
    return the `k` values in the order they were enqueued. -/
theorem c9_ring_buffer_fifo (α : Type) [Inhabited α] (x : α) (buf : List α)
    (xs : List α) (hlen : xs.length ≤ buf.length) :
    (∀ r : RQueue α, r.isFull = true → r.enqueue x = (false, r)) ∧
    (∀ r : RQueue α, r.isEmpty = true → r.dequeue = (none, r)) ∧
    ((RQueue.mk0 buf).enqueueAll xs).1 = true ∧
    (RQueue.dequeueN xs.length ((RQueue.mk0 buf).enqueueAll xs).2).1 = xs := by
  refine ⟨fun r hf => ?_, fun r he => ?_, ?_⟩
  · unfold RQueue.enqueue
    rw [if_pos hf]
  · unfold RQueue.dequeue
    rw [if_pos he]
  · cases xs with
    | nil => exact ⟨rfl, rfl⟩
    | cons y ys =>
      have hcap : 0 < buf.length := by
        simp only [List.length_cons] at hlen
        omega
      have hinv : (RQueue.mk0 buf).Inv :=
        ⟨by simpa [RQueue.mk0, RQueue.cap] using hcap,
         by simp [RQueue.mk0, RQueue.cap],
         by simp [RQueue.mk0]⟩
      obtain ⟨e1, e2, e3, e4, e5⟩ := enqueueAll_spec (y :: ys) _ hinv (by
        show (0 : Nat) + (y :: ys).length ≤ (RQueue.mk0 buf).cap
        simpa [RQueue.mk0, RQueue.cap] using hlen)
      refine ⟨e1, ?_⟩
      rw [dequeueN_all _ _ e2 (by rw [e3]; simp [RQueue.mk0])]
      rw [e5]
      show (RQueue.mk0 buf).toModel ++ (y :: ys) = y :: ys
      simp [RQueue.toModel, RQueue.mk0]

/-- Witness for C9 on a capacity-5 ring and three enqueued values. -/
theorem c9_ring_buffer_fifo_witness :
    ([10, 20, 30] : List Nat).length ≤ (List.replicate 5 0).length ∧
    (RQueue.dequeueN 3 ((RQueue.mk0 (List.replicate 5 (0 : Nat))).enqueueAll [10, 20, 30]).2).1
      = [10, 20, 30] :=
  ⟨by decide,
   (c9_ring_buffer_fifo Nat 7 (List.replicate 5 0) [10, 20, 30] (by decide)).2.2.2⟩

/- ---- C8: software timers ---- -/
theorem mgrTickN_succ (n : Nat) (m : TimerMgr) :
    mgrTickN (n + 1) m = mgrTick (mgrTickN n m) := by
  induction n generalizing m with
  | zero => rfl
  | succ k ih => exact ih (mgrTick m)

theorem succ_mod_eq (P n : Nat) (hP : 0 < P) (h : n % P = P - 1) :
    (n + 1) % P = 0 ∧ (n + 1) / P = n / P + 1 := by
  have hdm := Nat.div_add_mod n P
  have hlt : n % P < P := Nat.mod_lt _ hP
  have hn : n + 1 = P * (n / P + 1) := by
    rw [Nat.mul_succ]
    omega
  constructor
  · rw [hn]
    exact Nat.mul_mod_right _ _
  · rw [hn]
    exact Nat.mul_div_cancel_left _ hP

theorem succ_mod_ne (P n : Nat) (hP : 0 < P) (h : ¬ n % P = P - 1) :
    (n + 1) % P = n % P + 1 ∧ (n + 1) / P = n / P := by
  have hdm := Nat.div_add_mod n P
  have hlt : n % P < P := Nat.mod_lt _ hP
  have hsucc : n % P + 1 < P := by omega
  have hn : n + 1 = (n % P + 1) + P * (n / P) := by omega
  constructor
  · rw [hn, Nat.add_mul_mod_self_left]
    exact Nat.mod_eq_of_lt hsucc
  · rw [hn, Nat.add_mul_div_left _ _ hP, Nat.div_eq_of_lt hsucc, Nat.zero_add]

theorem periodic_closed_form (hnd P : Nat) (hasCb : Bool) (hh : ¬ hnd = 0) (hP : 0 < P)
    (n : Nat) :
    mgrTickN n ⟨[⟨hnd, .periodic, .running, P, P, hasCb, true, 0⟩], 0, 0⟩ =
      ⟨[⟨hnd, .periodic, .running, P, P - n % P, hasCb, true, (n / P) % M32⟩],
       if hasCb then (n / P) % M32 else 0,
       if hasCb then 0 else (n / P) % M32⟩ := by
  induction n with
  | zero =>
    cases hasCb <;> simp [mgrTickN, Nat.zero_mod, Nat.zero_div]
  | succ k ih =>
    rw [mgrTickN_succ, ih]
    have hklt : k % P < P := Nat.mod_lt _ hP
    by_cases hk : k % P = P - 1
    · obtain ⟨hm, hd⟩ := succ_mod_eq P k hP hk
      have h1 : 0 < P - k % P := by omega
      have hr : P - k % P - 1 = 0 := by omega
      unfold mgrTick mgrTickGo tickCB
      simp only [hh, hm, hd]
      cases hasCb <;> simp [hr, h1, addm32, M32, mgrTickGo, Nat.mod_add_mod]
    · obtain ⟨hm, hd⟩ := succ_mod_ne P k hP hk
      have h1 : 0 < P - k % P := by omega
      have hr : ¬ (P - k % P - 1 = 0) := by omega
      unfold mgrTick mgrTickGo tickCB
      simp only [hh, hm, hd]
      cases hasCb <;> simp [h1, hr, addm32, M32, mgrTickGo] <;> try omega

theorem oneshot_closed_form (hnd P : Nat) (hasCb : Bool) (hh : ¬ hnd = 0) (hP : 0 < P)
    (n : Nat) :
    mgrTickN n ⟨[⟨hnd, .oneShot, .running, P, P, hasCb, false, 0⟩], 0, 0⟩ =
      ⟨[⟨hnd, .oneShot, if P ≤ n then .stopped else .running, P,
         P - min n P, hasCb, false, if P ≤ n then 1 else 0⟩],
       if hasCb ∧ P ≤ n then 1 else 0,
       if ¬ hasCb = true ∧ P ≤ n then 1 else 0⟩ := by
  induction n with
  | zero =>
    have h0 : ¬ P ≤ 0 := by omega
    simp [mgrTickN, h0]
  | succ k ih =>
    rw [mgrTickN_succ, ih]
    by_cases hPk : P ≤ k
    · have hPk1 : P ≤ k + 1 := by omega
      have hmin : min k P = P := by omega
      have hmin1 : min (k + 1) P = P := by omega
      rw [hmin, hmin1]
      unfold mgrTick mgrTickGo tickCB
      cases hasCb <;> simp [hh, hPk, hPk1, addm32, M32, mgrTickGo]
    · have hmin : min k P = k := by omega
      have h1 : 0 < P - k := by omega
      by_cases hfire : P = k + 1
      · have hPk1 : P ≤ k + 1 := by omega
        have hmin1 : min (k + 1) P = P := by omega
        have hr : P - k - 1 = 0 := by omega
        rw [hmin, hmin1]
        unfold mgrTick mgrTickGo tickCB
        cases hasCb <;> simp [hh, hPk, hPk1, hr, h1, addm32, M32, mgrTickGo]
      · have hPk1 : ¬ P ≤ k + 1 := by omega
        have hmin1 : min (k + 1) P = k + 1 := by omega
        have hr : ¬ P - k - 1 = 0 := by omega
        rw [hmin, hmin1]
        unfold mgrTick mgrTickGo tickCB
        cases hasCb <;> simp [hh, hPk, hPk1, hr, h1, addm32, M32, mgrTickGo] <;> try omega

/-- C8: starting a freshly created PERIODIC timer of period P and ticking
    n times leaves it RUNNING with `remaining = P - n mod P` and
    `expiry_count = n / P` (mod 2^32): the expiry counter steps exactly at
    the ticks P, 2P, 3P, … after the start, and the callback invocation
    counter (`total_callbacks` for this single-timer manager) steps with
    it.  A ONE_SHOT timer of period P is RUNNING with `expiry_count = 0`
    before tick P, fires exactly once at tick P (`expiry_count = 1`, one
    callback), transitions to STOPPED and never fires again. -/
theorem c8_timer_firing (hnd P n : Nat) (hasCb : Bool) (hh : ¬ hnd = 0) (hP : 0 < P) :
    mgrTickN n ⟨[startTimerCB (mkTimer hnd P .periodic hasCb)], 0, 0⟩ =
      ⟨[⟨hnd, .periodic, .running, P, P - n % P, hasCb, true, (n / P) % M32⟩],
       if hasCb then (n / P) % M32 else 0,
       if hasCb then 0 else (n / P) % M32⟩ ∧
    mgrTickN n ⟨[startTimerCB (mkTimer hnd P .oneShot hasCb)], 0, 0⟩ =
      ⟨[⟨hnd, .oneShot, if P ≤ n then .stopped else .running, P,
         P - min n P, hasCb, false, if P ≤ n then 1 else 0⟩],
       if hasCb ∧ P ≤ n then 1 else 0,
       if ¬ hasCb = true ∧ P ≤ n then 1 else 0⟩ := by
  constructor
  · have hstart : startTimerCB (mkTimer hnd P .periodic hasCb) =
        ⟨hnd, .periodic, .running, P, P, hasCb, true, 0⟩ := by
      simp [startTimerCB, mkTimer]
    rw [hstart]
    exact periodic_closed_form hnd P hasCb hh hP n
  · have hstart : startTimerCB (mkTimer hnd P .oneShot hasCb) =
        ⟨hnd, .oneShot, .running, P, P, hasCb, false, 0⟩ := by
      simp [startTimerCB, mkTimer]
    rw [hstart]
    exact oneshot_closed_form hnd P hasCb hh hP n

/-- Witness for C8: period-5 periodic timer over 20 ticks, 4 firings. -/
theorem c8_timer_firing_witness :
    (¬ (1 : Nat) = 0) ∧ (0 : Nat) < 5 ∧
    mgrTickN 20 ⟨[startTimerCB (mkTimer 1 5 .periodic true)], 0, 0⟩ =
      ⟨[⟨1, .periodic, .running, 5, 5 - 20 % 5, true, true, (20 / 5) % M32⟩],
       if true then (20 / 5) % M32 else 0, if true then 0 else (20 / 5) % M32⟩ :=
  ⟨by decide, by decide, (c8_timer_firing 1 5 20 true (by decide) (by decide)).1⟩

/- ---- C5 (amended): PRIORITY selection characterization ---- -/
theorem selPrioGo_spec (s : SchedState) (l : List Nat) (hp : Nat) (best : Option Nat) :
    (selPrioGo s l hp best = best ∧
       ∀ i ∈ l, (s.tcb i).state = .ready → (s.tcb i).priority ≤ hp) ∨
    (∃ l1 r l2, l = l1 ++ r :: l2 ∧ selPrioGo s l hp best = some r ∧
       (s.tcb r).state = .ready ∧ hp < (s.tcb r).priority ∧
       (∀ i ∈ l1, (s.tcb i).state = .ready → (s.tcb i).priority < (s.tcb r).priority) ∧
       (∀ i ∈ l, (s.tcb i).state = .ready → (s.tcb i).priority ≤ (s.tcb r).priority)) := by
  induction l generalizing hp best with
  | nil => exact Or.inl ⟨rfl, by simp⟩
  | cons a rest ih =>
    by_cases ha : (s.tcb a).state = .ready ∧ hp < (s.tcb a).priority
    · have heq : selPrioGo s (a :: rest) hp best
          = selPrioGo s rest (s.tcb a).priority (some a) := by
        simp [selPrioGo, ha]
      rcases ih (s.tcb a).priority (some a) with ⟨h1, h2⟩ |
        ⟨l1, r, l2, hl, hsel, hready, hlt, hbefore, hmax⟩
      · right
        refine ⟨[], a, rest, rfl, heq.trans h1, ha.1, ha.2, by simp, ?_⟩
        intro i hi hir
        rcases List.mem_cons.mp hi with rfl | hi'
        · exact Nat.le_refl _
        · exact h2 i hi' hir
      · right
        refine ⟨a :: l1, r, l2, by rw [hl]; rfl, heq.trans hsel, hready,
          Nat.lt_trans ha.2 hlt, ?_, ?_⟩
        · intro i hi hir
          rcases List.mem_cons.mp hi with rfl | hi'
          · exact hlt
          · exact hbefore i hi' hir
        · intro i hi hir
          rcases List.mem_cons.mp hi with rfl | hi'
          · exact Nat.le_of_lt hlt
          · exact hmax i hi' hir
    · have heq : selPrioGo s (a :: rest) hp best = selPrioGo s rest hp best := by
        simp [selPrioGo, ha]
      rcases ih hp best with ⟨h1, h2⟩ |
        ⟨l1, r, l2, hl, hsel, hready, hlt, hbefore, hmax⟩
      · left
        refine ⟨heq.trans h1, ?_⟩
        intro i hi hir
        rcases List.mem_cons.mp hi with rfl | hi'
        · by_contra hcon
          exact ha ⟨hir, by omega⟩
        · exact h2 i hi' hir
      · right
        refine ⟨a :: l1, r, l2, by rw [hl]; rfl, heq.trans hsel, hready, hlt, ?_, ?_⟩
        · intro i hi hir
          rcases List.mem_cons.mp hi with rfl | hi'
          · have hle : (s.tcb i).priority ≤ hp := by
              by_contra hcon
              exact ha ⟨hir, by omega⟩
            omega
          · exact hbefore i hi' hir
        · intro i hi hir
          rcases List.mem_cons.mp hi with rfl | hi'
          · have hle : (s.tcb i).priority ≤ hp := by
              by_contra hcon
              exact ha ⟨hir, by omega⟩
            omega
          · exact hmax i hi' hir

/-- C5 (amended): under the PRIORITY policy, whenever some READY task of
    priority above IDLE is registered, `selectNextTask` returns a READY
    task of priority above IDLE whose priority is maximal among all READY
    registered tasks, and it is the earliest such task in registration
    order (every earlier READY task has strictly smaller priority); in
    particular selection does not rotate through equal-priority tasks. -/
theorem c5_priority_selects_first_max (s : SchedState)
    (hpol : s.policy = .prioritySched)
    (hex : ∃ j ∈ s.task_list, (s.tcb j).state = .ready ∧ 0 < (s.tcb j).priority) :
    (s.tcb (selectNextTask s)).state = .ready ∧
    0 < (s.tcb (selectNextTask s)).priority ∧
    (∀ i ∈ s.task_list, (s.tcb i).state = .ready →
        (s.tcb i).priority ≤ (s.tcb (selectNextTask s)).priority) ∧
    ∃ l1 l2, s.task_list = l1 ++ selectNextTask s :: l2 ∧
      (∀ i ∈ l1, (s.tcb i).state = .ready →
          (s.tcb i).priority < (s.tcb (selectNextTask s)).priority) := by
  obtain ⟨j, hj, hjr, hjp⟩ := hex
  rcases selPrioGo_spec s s.task_list 0 none with ⟨h1, h2⟩ |
    ⟨l1, r, l2, hl, hsel, hready, hlt, hbefore, hmax⟩
  · have := h2 j hj hjr
    omega
  · have hsel' : selectNextTask s = r := by
      unfold selectNextTask
      rw [hpol]
      rw [hsel]
    rw [hsel']
    exact ⟨hready, hlt, hmax, l1, l2, hl, hbefore⟩

/-- Witness for C5 on a two-task PRIORITY scheduler state. -/
theorem c5_priority_selects_first_max_witness :
    (let s : SchedState :=
      { tcbs := [⟨.ready, 0, 10, 0, 0⟩, ⟨.ready, 2, 10, 0, 0⟩, ⟨.ready, 2, 10, 0, 0⟩],
        task_list := [1, 2], current := none, is_running := false, is_init := true,
        policy := .prioritySched, tick_count := 0, time_slice_ticks := 10 }
     (s.policy = .prioritySched ∧
        ∃ j ∈ s.task_list, (s.tcb j).state = .ready ∧ 0 < (s.tcb j).priority) ∧
       ∃ l1 l2, s.task_list = l1 ++ selectNextTask s :: l2 ∧
         (∀ i ∈ l1, (s.tcb i).state = .ready →
             (s.tcb i).priority < (s.tcb (selectNextTask s)).priority)) :=
  ⟨⟨by decide, by decide⟩,
   (c5_priority_selects_first_max _ (by decide) (by decide)).2.2.2⟩

/- ---- C2 (amended): exact delay wake ---- -/

/- ---- shared scheduler helper lemmas ---- -/

theorem tcb_setTcb_ne (s : SchedState) (i j : Nat) (t : TCB) (h : ¬ i = j) :
    (s.setTcb i t).tcb j = s.tcb j := by
  unfold SchedState.setTcb SchedState.tcb
  exact list_getD_set_ne _ _ _ _ h

theorem tcb_setTcb_self (s : SchedState) (i : Nat) (t : TCB) (h : i < s.tcbs.length) :
    (s.setTcb i t).tcb i = t := by
  unfold SchedState.setTcb SchedState.tcb
  exact list_getD_set_self _ _ _ h

theorem findAfterCur_ready (s : SchedState) :
    ∀ (l : List Nat) (f : Bool) (i : Nat),
      findAfterCur s l f = some i → (s.tcb i).state = .ready := by
  intro l
  induction l with
  | nil => intro f i h; exact absurd h (by simp [findAfterCur])
  | cons a rest ih =>
    intro f i h
    unfold findAfterCur at h
    by_cases h1 : s.current = some a
    · rw [if_pos h1] at h
      exact ih true i h
    · rw [if_neg h1] at h
      by_cases h2 : f = true ∧ (s.tcb a).state = .ready
      · rw [if_pos h2] at h
        cases h
        exact h2.2
      · rw [if_neg h2] at h
        exact ih f i h

theorem findWrap_ready (s : SchedState) :
    ∀ (l : List Nat) (i : Nat), findWrap s l = some i → (s.tcb i).state = .ready := by
  intro l
  induction l with
  | nil => intro i h; exact absurd h (by simp [findWrap])
  | cons a rest ih =>
    intro i h
    unfold findWrap at h
    by_cases h1 : (s.tcb a).state = .ready
    · rw [if_pos h1] at h
      cases h
      exact h1
    · rw [if_neg h1] at h
      by_cases h2 : s.current = some a
      · rw [if_pos h2] at h
        exact absurd h (by simp)
      · rw [if_neg h2] at h
        exact ih i h

theorem selPrioGo_ready (s : SchedState) :
    ∀ (l : List Nat) (hp : Nat) (best : Option Nat) (i : Nat),
      selPrioGo s l hp best = some i →
      (∀ b, best = some b → (s.tcb b).state = .ready) →
      (s.tcb i).state = .ready := by
  intro l
  induction l with
  | nil =>
    intro hp best i h hb
    exact hb i h
  | cons a rest ih =>
    intro hp best i h hb
    unfold selPrioGo at h
    by_cases h1 : (s.tcb a).state = .ready ∧ hp < (s.tcb a).priority
    · rw [if_pos h1] at h
      exact ih _ _ i h (fun b hbb => by cases hbb; exact h1.1)
    · rw [if_neg h1] at h
      exact ih _ _ i h hb

theorem selectNextTask_ready_or_idle (s : SchedState) :
    selectNextTask s = 0 ∨ (s.tcb (selectNextTask s)).state = .ready := by
  unfold selectNextTask
  cases hp : s.policy with
  | roundRobin =>
    cases h1 : findAfterCur s s.task_list false with
    | some i => exact Or.inr (findAfterCur_ready s _ _ _ h1)
    | none =>
      cases h2 : findWrap s s.task_list with
      | some i => exact Or.inr (findWrap_ready s _ _ h2)
      | none => exact Or.inl rfl
  | prioritySched =>
    cases h1 : selPrioGo s s.task_list 0 none with
    | some i => exact Or.inr (selPrioGo_ready s _ _ _ _ h1 (by intro b hb; cases hb))
    | none => exact Or.inl rfl
  | cooperative => exact Or.inl rfl

theorem selectNextTask_ne (s : SchedState) (c : Nat) (hc0 : ¬ c = 0)
    (hnr : ¬ (s.tcb c).state = .ready) : ¬ selectNextTask s = c := by
  intro h
  rcases selectNextTask_ready_or_idle s with h0 | hr
  · rw [h] at h0
    exact hc0 h0
  · rw [h] at hr
    exact hnr hr

theorem switchContext_frame (s : SchedState) (next : Nat) :
    (switchContext s next).task_list = s.task_list ∧
    (switchContext s next).tick_count = s.tick_count ∧
    (switchContext s next).is_running = s.is_running ∧
    (switchContext s next).is_init = s.is_init ∧
    (switchContext s next).policy = s.policy ∧
    (switchContext s next).time_slice_ticks = s.time_slice_ticks ∧
    (switchContext s next).tcbs.length = s.tcbs.length ∧
    (switchContext s next).current = some next := by
  unfold switchContext
  dsimp only
  split
  · split
    · simp [SchedState.setTcb, SchedState.tcb, List.length_set]
    · simp [SchedState.setTcb, SchedState.tcb, List.length_set]
  · simp [SchedState.setTcb, SchedState.tcb, List.length_set]

theorem switchContext_tcb_other (s : SchedState) (next c : Nat)
    (hnext : ¬ next = c)
    (hcur : ∀ p, s.current = some p → p = c → ¬ (s.tcb p).state = .running) :
    (switchContext s next).tcb c = s.tcb c := by
  unfold switchContext
  dsimp only
  split
  next p hc =>
    split
    next hp =>
      by_cases hpc : p = c
      · exact absurd hp (hcur p hc hpc)
      · show ((s.setTcb p { s.tcb p with state := .ready }).setTcb next _).tcb c = s.tcb c
        rw [tcb_setTcb_ne _ _ _ _ hnext]
        exact tcb_setTcb_ne _ _ _ _ hpc
    next hp =>
      exact tcb_setTcb_ne _ _ _ _ hnext
  next hc =>
    exact tcb_setTcb_ne _ _ _ _ hnext

theorem schedYield_blocked_frame (s : SchedState) (c : Nat) (hc0 : ¬ c = 0)
    (hnr : ¬ (s.tcb c).state = .ready) (hnrun : ¬ (s.tcb c).state = .running)
    (his : s.is_running = true) :
    (schedYield s).tcb c = s.tcb c ∧ ¬ (schedYield s).current = some c ∧
    (schedYield s).task_list = s.task_list ∧
    (schedYield s).tick_count = s.tick_count ∧
    (schedYield s).is_running = true ∧
    (schedYield s).tcbs.length = s.tcbs.length := by
  unfold schedYield
  rw [his]
  simp only [if_true]
  have hne : ¬ selectNextTask s = c := selectNextTask_ne s c hc0 hnr
  by_cases hcc : s.current = some (selectNextTask s)
  · rw [if_pos hcc]
    refine ⟨rfl, ?_, rfl, rfl, his, rfl⟩
    rw [hcc]
    intro hcon
    cases hcon
    exact hne rfl
  · rw [if_neg hcc]
    obtain ⟨f1, f2, f3, f4, f5, f6, f7, f8⟩ := switchContext_frame s (selectNextTask s)
    refine ⟨?_, ?_, f1, f2, f3.trans his, f7⟩
    · exact switchContext_tcb_other s _ c hne (fun p hp hpc => by
        rw [hpc] at hp ⊢
        intro hr
        exact hnrun hr)
    · rw [f8]
      intro hcon
      cases hcon
      exact hne rfl

theorem wakeOne_other (w : SchedState) (i c : Nat) (h : ¬ i = c) :
    (wakeOne w i).tcb c = w.tcb c ∧ (wakeOne w i).current = w.current ∧
    (wakeOne w i).tick_count = w.tick_count ∧ (wakeOne w i).task_list = w.task_list ∧
    (wakeOne w i).is_running = w.is_running ∧ (wakeOne w i).tcbs.length = w.tcbs.length := by
  unfold wakeOne
  dsimp only
  split
  · exact ⟨tcb_setTcb_ne _ _ _ _ h, rfl, rfl, rfl, rfl, List.length_set _ _ _⟩
  · exact ⟨rfl, rfl, rfl, rfl, rfl, rfl⟩

theorem wakeOne_frame (w : SchedState) (i : Nat) :
    (wakeOne w i).current = w.current ∧
    (wakeOne w i).tick_count = w.tick_count ∧ (wakeOne w i).task_list = w.task_list ∧
    (wakeOne w i).is_running = w.is_running ∧ (wakeOne w i).tcbs.length = w.tcbs.length := by
  unfold wakeOne
  dsimp only
  split
  · exact ⟨rfl, rfl, rfl, rfl, List.length_set _ _ _⟩
  · exact ⟨rfl, rfl, rfl, rfl, rfl⟩

theorem wakeList_frame (l : List Nat) (w : SchedState) :
    (wakeList w l).current = w.current ∧
    (wakeList w l).tick_count = w.tick_count ∧ (wakeList w l).task_list = w.task_list ∧
    (wakeList w l).is_running = w.is_running ∧ (wakeList w l).tcbs.length = w.tcbs.length := by
  induction l generalizing w with
  | nil => exact ⟨rfl, rfl, rfl, rfl, rfl⟩
  | cons i rest ih =>
    obtain ⟨a1, a2, a3, a4, a5⟩ := wakeOne_frame w i
    obtain ⟨b1, b2, b3, b4, b5⟩ := ih (wakeOne w i)
    exact ⟨b1.trans a1, b2.trans a2, b3.trans a3, b4.trans a4, b5.trans a5⟩

theorem wakeList_nowake (l : List Nat) (w : SchedState) (c : Nat)
    (hb : (w.tcb c).state = .blocked)
    (hlt : w.tick_count < (w.tcb c).blocked_until) :
    (wakeList w l).tcb c = w.tcb c := by
  induction l generalizing w with
  | nil => rfl
  | cons i rest ih =>
    by_cases hic : i = c
    · subst hic
      have hone : wakeOne w i = w := by
        unfold wakeOne
        dsimp only
        rw [if_neg]
        intro hcon
        omega
      rw [wakeList, hone]
      exact ih w hb hlt
    · obtain ⟨a1, a2, a3, a4, a5, a6⟩ := wakeOne_other w i c hic
      rw [wakeList]
      rw [ih (wakeOne w i) (by rw [a1]; exact hb) (by rw [a1, a3]; exact hlt)]
      exact a1

theorem wakeList_keeps_ready (l : List Nat) (w : SchedState) (c : Nat)
    (hr : (w.tcb c).state = .ready) :
    ((wakeList w l).tcb c).state = .ready := by
  induction l generalizing w with
  | nil => exact hr
  | cons i rest ih =>
    by_cases hic : i = c
    · subst hic
      have hone : wakeOne w i = w := by
        unfold wakeOne
        dsimp only
        rw [if_neg]
        intro hcon
        rw [hr] at hcon
        exact absurd hcon.1 (by intro hx; cases hx)
      rw [wakeList, hone]
      exact ih w hr
    · obtain ⟨a1, _, _, _, _, _⟩ := wakeOne_other w i c hic
      rw [wakeList]
      exact ih (wakeOne w i) (by rw [a1]; exact hr)

theorem wakeList_wakes (l : List Nat) (w : SchedState) (c : Nat)
    (hmem : c ∈ l) (hb : (w.tcb c).state = .blocked)
    (hge : (w.tcb c).blocked_until ≤ w.tick_count) (hlen : c < w.tcbs.length) :
    ((wakeList w l).tcb c).state = .ready := by
  induction l generalizing w with
  | nil => cases hmem
  | cons i rest ih =>
    by_cases hic : i = c
    · subst hic
      have hone : (wakeOne w i).tcb i = { w.tcb i with state := .ready } := by
        unfold wakeOne
        dsimp only
        rw [if_pos ⟨hb, hge⟩]
        exact tcb_setTcb_self _ _ _ hlen
      rw [wakeList]
      exact wakeList_keeps_ready rest (wakeOne w i) i (by rw [hone])
    · have hmem' : c ∈ rest := by
        rcases List.mem_cons.mp hmem with h | h
        · exact absurd h.symm hic
        · exact h
      obtain ⟨a1, _, a3, _, _, a6⟩ := wakeOne_other w i c hic
      rw [wakeList]
      exact ih (wakeOne w i) hmem' (by rw [a1]; exact hb)
        (by rw [a1, a3]; exact hge) (by rw [a6]; exact hlen)

theorem wake_phase (w : SchedState) (c bu tcount : Nat)
    (hb : (w.tcb c).state = .blocked) (hbu : (w.tcb c).blocked_until = bu)
    (hcur : ¬ w.current = some c) (hmem : c ∈ w.task_list) (hlen : c < w.tcbs.length)
    (his : w.is_running = true) (htc : w.tick_count = tcount) :
    (wakeList w w.task_list).tick_count = tcount ∧
    (if tcount < bu then (wakeList w w.task_list).tcb c = w.tcb c
     else ((wakeList w w.task_list).tcb c).state = .ready) ∧
    ¬ (wakeList w w.task_list).current = some c ∧
    (wakeList w w.task_list).task_list = w.task_list ∧
    (wakeList w w.task_list).is_running = true ∧
    (wakeList w w.task_list).tcbs.length = w.tcbs.length := by
  obtain ⟨f1, f2, f3, f4, f5⟩ := wakeList_frame w.task_list w
  refine ⟨f2.trans htc, ?_, by rw [f1]; exact hcur, f3, f4.trans his, f5⟩
  by_cases hcmp : tcount < bu
  · rw [if_pos hcmp]
    exact wakeList_nowake _ _ _ hb (by omega)
  · rw [if_neg hcmp]
    exact wakeList_wakes _ _ _ hmem hb (by omega) hlen

theorem tick_assemble (s W : SchedState) (c bu : Nat)
    (hWt : W.tcb c = s.tcb c) (hWc : ¬ W.current = some c)
    (hWl : W.task_list = s.task_list) (hWk : W.tick_count = s.tick_count + 1)
    (hWr : W.is_running = true) (hWn : W.tcbs.length = s.tcbs.length)
    (hb : (s.tcb c).state = .blocked) (hbu : (s.tcb c).blocked_until = bu)
    (hmem : c ∈ s.task_list) (hlen : c < s.tcbs.length) :
    (wakeList W W.task_list).tick_count = s.tick_count + 1 ∧
    (if s.tick_count + 1 < bu then (wakeList W W.task_list).tcb c = s.tcb c
     else ((wakeList W W.task_list).tcb c).state = .ready) ∧
    ¬ (wakeList W W.task_list).current = some c ∧
    (wakeList W W.task_list).task_list = s.task_list ∧
    (wakeList W W.task_list).is_running = true ∧
    (wakeList W W.task_list).tcbs.length = s.tcbs.length := by
  obtain ⟨w1, w2, w3, w4, w5, w6⟩ := wake_phase W c bu (s.tick_count + 1)
    (by rw [hWt]; exact hb) (by rw [hWt]; exact hbu) hWc (by rw [hWl]; exact hmem)
    (by rw [hWn]; exact hlen) hWr hWk
  refine ⟨w1, ?_, w3, w4.trans hWl, w5, w6.trans hWn⟩
  by_cases hcmp : s.tick_count + 1 < bu
  · rw [if_pos hcmp] at w2 ⊢
    exact w2.trans hWt
  · rw [if_neg hcmp] at w2 ⊢
    exact w2

theorem schedTick_step (s : SchedState) (c bu : Nat) (hc0 : ¬ c = 0)
    (hb : (s.tcb c).state = .blocked) (hbu : (s.tcb c).blocked_until = bu)
    (hcur : ¬ s.current = some c) (hmem : c ∈ s.task_list)
    (hlen : c < s.tcbs.length) (his : s.is_running = true)
    (hm32 : s.tick_count + 1 < M32) :
    (schedTick s).tick_count = s.tick_count + 1 ∧
    (if s.tick_count + 1 < bu then (schedTick s).tcb c = s.tcb c
     else ((schedTick s).tcb c).state = .ready) ∧
    ¬ (schedTick s).current = some c ∧
    (schedTick s).task_list = s.task_list ∧
    (schedTick s).is_running = true ∧
    (schedTick s).tcbs.length = s.tcbs.length := by
  have hadd : addm32 s.tick_count 1 = s.tick_count + 1 := Nat.mod_eq_of_lt hm32
  unfold schedTick
  dsimp only
  split
  next p heq =>
    have hpc : ¬ p = c := by
      intro hpc
      rw [hpc] at heq
      exact hcur heq
    split
    next hslice =>
      split
      next hzero =>
        obtain ⟨y1, y2, y3, y4, y5, y6⟩ :=
          schedYield_blocked_frame
            (SchedState.setTcb { s with tick_count := addm32 s.tick_count 1 } p
              { SchedState.tcb { s with tick_count := addm32 s.tick_count 1 } p with
                  time_slice :=
                    (SchedState.tcb { s with tick_count := addm32 s.tick_count 1 } p).time_slice - 1 })
            c hc0
            (by
              rw [tcb_setTcb_ne _ _ _ _ hpc]
              show ¬ (s.tcb c).state = .ready
              rw [hb]
              intro hx
              cases hx)
            (by
              rw [tcb_setTcb_ne _ _ _ _ hpc]
              show ¬ (s.tcb c).state = .running
              rw [hb]
              intro hx
              cases hx)
            his
        refine tick_assemble s _ c bu ?_ y2 y3 ?_ y5 ?_ hb hbu hmem hlen
        · rw [y1]
          exact tcb_setTcb_ne _ _ _ _ hpc
        · rw [y4]
          exact hadd
        · rw [y6]
          exact List.length_set _ _ _
      next hzero =>
        refine tick_assemble s _ c bu ?_ hcur rfl hadd his ?_ hb hbu hmem hlen
        · exact tcb_setTcb_ne _ _ _ _ hpc
        · exact List.length_set _ _ _
    next hslice =>
      exact tick_assemble s _ c bu rfl hcur rfl hadd his rfl hb hbu hmem hlen
  next heq =>
    exact tick_assemble s _ c bu rfl hcur rfl hadd his rfl hb hbu hmem hlen

theorem schedDelay_blocks (s : SchedState) (c D : Nat)
    (hcur : s.current = some c) (hc0 : ¬ c = 0) (hlen : c < s.tcbs.length)
    (his : s.is_running = true) (hD : ¬ D = 0)
    (hov : s.tick_count + D < M32) :
    (schedDelay s D).tcb c =
      { s.tcb c with state := .blocked, blocked_until := s.tick_count + D } ∧
    ¬ (schedDelay s D).current = some c ∧
    (schedDelay s D).task_list = s.task_list ∧
    (schedDelay s D).tick_count = s.tick_count ∧
    (schedDelay s D).is_running = true ∧
    (schedDelay s D).tcbs.length = s.tcbs.length := by
  have haddm : addm32 s.tick_count D = s.tick_count + D := Nat.mod_eq_of_lt hov
  unfold schedDelay
  rw [hcur]
  dsimp only
  rw [his]
  simp only [if_true, if_neg hD]
  have hs1 : (s.setTcb c { s.tcb c with state := .blocked, blocked_until := addm32 s.tick_count D }).tcb c = { s.tcb c with state := .blocked, blocked_until := addm32 s.tick_count D } :=
    tcb_setTcb_self _ _ _ hlen
  obtain ⟨y1, y2, y3, y4, y5, y6⟩ :=
    schedYield_blocked_frame
      (s.setTcb c { s.tcb c with state := .blocked, blocked_until := addm32 s.tick_count D })
      c hc0
      (by rw [hs1]; intro hx; cases hx)
      (by rw [hs1]; intro hx; cases hx)
      his
  refine ⟨?_, y2, y3, y4, y5, ?_⟩
  · rw [y1, hs1, haddm]
  · rw [y6]
    exact List.length_set _ _ _

theorem schedTickN_succ (n : Nat) (s : SchedState) :
    schedTickN (n + 1) s = schedTick (schedTickN n s) := by
  induction n generalizing s with
  | zero => rfl
  | succ k ih => exact ih (schedTick s)

/-- C2 (amended): if a task `c` is RUNNING and current when `delay(D)` is
    called with `D > 0` at tick counter `T`, and `T + D` does not overflow
    the 32-bit tick counter, then `c` is BLOCKED after every number `k < D`
    of subsequent ticks and becomes READY exactly on the `D`-th tick — the
    tick on which the counter reaches `T + D` — and not before. -/
theorem c2_delay_wake_exact (s : SchedState) (c T D : Nat)
    (hcur : s.current = some c) (hc0 : ¬ c = 0) (hlen : c < s.tcbs.length)
    (hmem : c ∈ s.task_list) (hrun : (s.tcb c).state = .running)
    (his : s.is_running = true) (hT : s.tick_count = T)
    (hD : 0 < D) (hov : T + D < M32) :
    (∀ k, k < D → ((schedTickN k (schedDelay s D)).tcb c).state = .blocked) ∧
    ((schedTickN D (schedDelay s D)).tcb c).state = .ready := by
  subst hT
  obtain ⟨d1, d2, d3, d4, d5, d6⟩ :=
    schedDelay_blocks s c D hcur hc0 hlen his (by omega) hov
  have main : ∀ k, k < D →
      (schedTickN k (schedDelay s D)).tcb c =
        { s.tcb c with state := .blocked, blocked_until := s.tick_count + D } ∧
      (schedTickN k (schedDelay s D)).tick_count = s.tick_count + k ∧
      ¬ (schedTickN k (schedDelay s D)).current = some c ∧
      (schedTickN k (schedDelay s D)).task_list = s.task_list ∧
      (schedTickN k (schedDelay s D)).is_running = true ∧
      (schedTickN k (schedDelay s D)).tcbs.length = s.tcbs.length := by
    intro k
    induction k with
    | zero =>
      intro _
      exact ⟨d1, by simp [schedTickN, d4], d2, d3, d5, d6⟩
    | succ kk ih =>
      intro hk
      obtain ⟨q1, q2, q3, q4, q5, q6⟩ := ih (by omega)
      have hfacts := schedTick_step (schedTickN kk (schedDelay s D)) c
        (s.tick_count + D) hc0 (by rw [q1]) (by rw [q1]) q3
        (by rw [q4]; exact hmem) (by rw [q6]; exact hlen) q5
        (by rw [q2]; omega)
      have hcmp : (schedTickN kk (schedDelay s D)).tick_count + 1 < s.tick_count + D := by
        rw [q2]
        omega
      have h2 := hfacts.2.1
      rw [if_pos hcmp] at h2
      rw [schedTickN_succ]
      refine ⟨h2.trans q1, ?_, hfacts.2.2.1, hfacts.2.2.2.1.trans q4,
        hfacts.2.2.2.2.1, hfacts.2.2.2.2.2.trans q6⟩
      rw [hfacts.1, q2]
      omega
  constructor
  · intro k hk
    rw [(main k hk).1]
  · obtain ⟨q1, q2, q3, q4, q5, q6⟩ := main (D - 1) (by omega)
    have hfacts := schedTick_step (schedTickN (D - 1) (schedDelay s D)) c
      (s.tick_count + D) hc0 (by rw [q1]) (by rw [q1]) q3
      (by rw [q4]; exact hmem) (by rw [q6]; exact hlen) q5
      (by rw [q2]; omega)
    have hcmp : ¬ (schedTickN (D - 1) (schedDelay s D)).tick_count + 1 < s.tick_count + D := by
      rw [q2]
      omega
    have h2 := hfacts.2.1
    rw [if_neg hcmp] at h2
    have hD1 : D = (D - 1) + 1 := by omega
    nth_rewrite 1 [hD1]
    rw [schedTickN_succ]
    exact h2

/-- Witness for C2: one task delaying 3 ticks from tick 0. -/
theorem c2_delay_wake_exact_witness :
    (let sW := runSchedOps [.opInit .roundRobin, .opAdd 2, .opStart] (mkScheduler default)
     (sW.current = some 1 ∧ ¬ (1 : Nat) = 0 ∧ 1 < sW.tcbs.length ∧ 1 ∈ sW.task_list ∧
        (sW.tcb 1).state = .running ∧ sW.is_running = true ∧ sW.tick_count = 0 ∧
        (0 : Nat) < 3 ∧ 0 + 3 < M32) ∧
       ((schedTickN 3 (schedDelay sW 3)).tcb 1).state = .ready) :=
  ⟨⟨by decide, by decide, by decide, by decide, by decide, by decide, by decide,
    by decide, by decide⟩,
   (c2_delay_wake_exact _ 1 0 3 (by decide) (by decide) (by decide) (by decide)
     (by decide) (by decide) (by decide) (by decide) (by decide)).2⟩


/- ---- C1 (amended): scheduler invariant machinery ---- -/

theorem list_getD_set_oob {α} [Inhabited α] (l : List α) (i j : Nat) (a : α)
    (h : l.length ≤ i) : (l.set i a).getD j default = l.getD j default := by
  induction l generalizing i j with
  | nil => rfl
  | cons x xs ih =>
    cases i with
    | zero => simp at h
    | succ ii =>
      cases j with
      | zero => simp
      | succ jj =>
        have h2 : xs.length ≤ ii := by simpa using h
        simpa using ih ii jj h2

theorem tcb_congr (s s' : SchedState) (h1 : s'.tcbs = s.tcbs) (i : Nat) :
    s'.tcb i = s.tcb i := by
  unfold SchedState.tcb
  rw [h1]

theorem schedInv_congr (s s' : SchedState) (h1 : s'.tcbs = s.tcbs)
    (h2 : s'.current = s.current) (h3 : s'.is_running = s.is_running)
    (h4 : s'.is_init = s.is_init) (h : SchedInv s) : SchedInv s' := by
  obtain ⟨ha, hb⟩ := h
  constructor
  · intro hr i hi hrun
    rw [h2]
    exact ha (h3 ▸ hr) i (by rw [h1] at hi; exact hi)
      (by rw [tcb_congr s s' h1 i] at hrun; exact hrun)
  · intro hr i hi hrun
    rw [h4]
    exact hb (h3 ▸ hr) i (by rw [h1] at hi; exact hi)
      (by rw [tcb_congr s s' h1 i] at hrun; exact hrun)

theorem schedInv_setTcb_nonrunning (s : SchedState) (i : Nat) (t : TCB)
    (ht : ¬ t.state = .running) (h : SchedInv s) : SchedInv (s.setTcb i t) := by
  obtain ⟨ha, hb⟩ := h
  have hlen : (s.setTcb i t).tcbs.length = s.tcbs.length := List.length_set _ _ _
  constructor
  · intro hr j hj hrun
    by_cases hij : i = j
    · subst hij
      by_cases hl : i < s.tcbs.length
      · rw [tcb_setTcb_self s i t hl] at hrun
        exact absurd hrun ht
      · exact absurd hj (by rw [hlen]; exact hl)
    · rw [tcb_setTcb_ne s i j t hij] at hrun
      exact ha hr j (by rw [hlen] at hj; exact hj) hrun
  · intro hr j hj hrun
    by_cases hij : i = j
    · subst hij
      by_cases hl : i < s.tcbs.length
      · rw [tcb_setTcb_self s i t hl] at hrun
        exact absurd hrun ht
      · exact absurd hj (by rw [hlen]; exact hl)
    · rw [tcb_setTcb_ne s i j t hij] at hrun
      exact hb hr j (by rw [hlen] at hj; exact hj) hrun

theorem schedInv_setTcb_samestate (s : SchedState) (i : Nat) (t : TCB)
    (ht : t.state = (s.tcb i).state) (h : SchedInv s) : SchedInv (s.setTcb i t) := by
  obtain ⟨ha, hb⟩ := h
  have hlen : (s.setTcb i t).tcbs.length = s.tcbs.length := List.length_set _ _ _
  constructor
  · intro hr j hj hrun
    by_cases hij : i = j
    · subst hij
      by_cases hl : i < s.tcbs.length
      · rw [tcb_setTcb_self s i t hl] at hrun
        exact ha hr i hl (ht ▸ hrun)
      · exact absurd hj (by rw [hlen]; exact hl)
    · rw [tcb_setTcb_ne s i j t hij] at hrun
      exact ha hr j (by rw [hlen] at hj; exact hj) hrun
  · intro hr j hj hrun
    by_cases hij : i = j
    · subst hij
      by_cases hl : i < s.tcbs.length
      · rw [tcb_setTcb_self s i t hl] at hrun
        exact hb hr i hl (ht ▸ hrun)
      · exact absurd hj (by rw [hlen]; exact hl)
    · rw [tcb_setTcb_ne s i j t hij] at hrun
      exact hb hr j (by rw [hlen] at hj; exact hj) hrun

theorem switchContext_run_back (s : SchedState) (n j : Nat) (hnj : ¬ n = j)
    (hrun : ((switchContext s n).tcb j).state = .running) :
    (s.tcb j).state = .running := by
  revert hrun
  unfold switchContext SchedState.setTcb SchedState.tcb
  dsimp only
  split
  next p heq =>
    split
    next hp =>
      rw [list_getD_set_ne _ _ _ _ hnj]
      by_cases hpj : p = j
      · subst hpj
        by_cases hl : p < s.tcbs.length
        · rw [list_getD_set_self _ _ _ hl]
          intro hx
          cases hx
        · rw [list_getD_set_oob _ _ _ _ (by omega)]
          intro hx
          exact hx
      · rw [list_getD_set_ne _ _ _ _ hpj]
        intro hx
        exact hx
    next hp =>
      rw [list_getD_set_ne _ _ _ _ hnj]
      intro hx
      exact hx
  next heq =>
    rw [list_getD_set_ne _ _ _ _ hnj]
    intro hx
    exact hx

theorem switchContext_demotes (s : SchedState) (n p : Nat)
    (heq : s.current = some p) (hp : (s.tcb p).state = .running)
    (hnp : ¬ n = p) (hl : p < s.tcbs.length) :
    ((switchContext s n).tcb p).state = .ready := by
  unfold switchContext SchedState.setTcb SchedState.tcb
  dsimp only
  split
  next p' heq' =>
    rw [heq] at heq'
    cases heq'
    split
    next hp' =>
      rw [list_getD_set_ne _ _ _ _ hnp, list_getD_set_self _ _ _ hl]
    next hp' =>
      exact absurd hp hp'
  next heq' =>
    rw [heq] at heq'
    cases heq'

theorem schedInv_switchContext (s : SchedState) (n : Nat)
    (his : s.is_running = true) (h : SchedInv s) : SchedInv (switchContext s n) := by
  obtain ⟨ha, hb⟩ := h
  have hrinv := ha his
  obtain ⟨f1, f2, f3, f4, f5, f6, f7, f8⟩ := switchContext_frame s n
  constructor
  · intro _ j hj hrun
    rw [f8]
    by_cases hjn : j = n
    · rw [hjn]
    · exfalso
      have hback := switchContext_run_back s n j (by omega) hrun
      have hcur := hrinv j (by rw [f7] at hj; exact hj) hback
      have hdem := switchContext_demotes s n j hcur hback (by omega)
        (by rw [f7] at hj; exact hj)
      rw [hdem] at hrun
      cases hrun
  · intro hr
    rw [f3, his] at hr
    cases hr

theorem schedInv_yield (s : SchedState) (h : SchedInv s) : SchedInv (schedYield s) ∧
    (schedYield s).is_running = s.is_running ∧ (schedYield s).is_init = s.is_init := by
  unfold schedYield
  by_cases his : s.is_running = true
  · rw [his]
    simp only [if_true]
    by_cases hcc : s.current = some (selectNextTask s)
    · rw [if_pos hcc]
      exact ⟨h, his, rfl⟩
    · rw [if_neg hcc]
      obtain ⟨f1, f2, f3, f4, f5, f6, f7, f8⟩ := switchContext_frame s (selectNextTask s)
      exact ⟨schedInv_switchContext s _ his h, f3.trans his, f4⟩
  · have hfalse : s.is_running = false := by
      cases hx : s.is_running
      · rfl
      · exact absurd hx his
    rw [hfalse]
    simp only [Bool.false_eq_true, if_false]
    exact ⟨h, hfalse, trivial⟩


theorem list_getD_append_lt {α} [Inhabited α] (l : List α) (a : α) (j : Nat)
    (h : j < l.length) : (l ++ [a]).getD j default = l.getD j default := by
  induction l generalizing j with
  | nil => simp at h
  | cons x xs ih =>
    cases j with
    | zero => rfl
    | succ jj =>
      have h2 : jj < xs.length := by simpa using h
      simpa [List.getD] using ih jj h2

theorem list_getD_append_self {α} [Inhabited α] (l : List α) (a : α) :
    (l ++ [a]).getD l.length default = a := by
  induction l with
  | nil => rfl
  | cons x xs ih => simpa [List.getD] using ih

theorem schedInv_init_aux (s r : SchedState) (t : TCB)
    (h1 : r.tcbs = s.tcbs.set 0 t) (ht : t.state = .ready)
    (h2 : r.current = s.current) (h3 : r.is_running = s.is_running)
    (h : SchedInv s) : SchedInv r := by
  obtain ⟨ha, hb⟩ := h
  have hlen : r.tcbs.length = s.tcbs.length := by rw [h1]; exact List.length_set _ _ _
  have htcb : ∀ j, j < r.tcbs.length → (r.tcb j).state = .running →
      ¬ j = 0 ∧ r.tcb j = s.tcb j := by
    intro j hj hrun
    by_cases hj0 : j = 0
    · exfalso
      subst hj0
      have h0l : 0 < s.tcbs.length := by rw [hlen] at hj; exact hj
      have hrt : r.tcb 0 = t := by
        unfold SchedState.tcb
        rw [h1]
        exact list_getD_set_self _ _ _ h0l
      rw [hrt, ht] at hrun
      cases hrun
    · refine ⟨hj0, ?_⟩
      unfold SchedState.tcb
      rw [h1]
      exact list_getD_set_ne _ _ _ _ (fun hh => hj0 hh.symm)
  constructor
  · intro hr j hj hrun
    obtain ⟨_, he⟩ := htcb j hj hrun
    rw [h2]
    exact ha (h3.symm.trans hr) j (by rw [hlen] at hj; exact hj)
      (by rw [he] at hrun; exact hrun)
  · intro hr j hj hrun
    obtain ⟨hj0, he⟩ := htcb j hj hrun
    exfalso
    exact hj0 (hb (h3.symm.trans hr) j (by rw [hlen] at hj; exact hj)
      (by rw [he] at hrun; exact hrun)).1

theorem schedInv_init2 (s : SchedState) (p : SchedPolicy) (h : SchedInv s) :
    SchedInv (schedInit s p) ∧ (schedInit s p).is_running = s.is_running := by
  unfold schedInit
  dsimp only
  split
  · exact ⟨h, rfl⟩
  · exact ⟨schedInv_init_aux s _ _ rfl rfl rfl rfl h, rfl⟩

theorem schedInv_append_aux (s r : SchedState) (t : TCB)
    (h1 : r.tcbs = s.tcbs ++ [t]) (ht : t.state = .ready)
    (h2 : r.current = s.current) (h3 : r.is_running = s.is_running)
    (h4 : r.is_init = s.is_init) (h : SchedInv s) : SchedInv r := by
  obtain ⟨ha, hb⟩ := h
  have hlen : r.tcbs.length = s.tcbs.length + 1 := by rw [h1]; simp
  have htcb : ∀ j, j < r.tcbs.length → (r.tcb j).state = .running →
      j < s.tcbs.length ∧ r.tcb j = s.tcb j := by
    intro j hj hrun
    by_cases hjl : j < s.tcbs.length
    · refine ⟨hjl, ?_⟩
      unfold SchedState.tcb
      rw [h1]
      exact list_getD_append_lt _ _ _ hjl
    · have hje : j = s.tcbs.length := by rw [hlen] at hj; omega
      exfalso
      have hrt : r.tcb j = t := by
        unfold SchedState.tcb
        rw [h1, hje]
        exact list_getD_append_self _ _
      rw [hrt, ht] at hrun
      cases hrun
  constructor
  · intro hr j hj hrun
    obtain ⟨hjl, he⟩ := htcb j hj hrun
    rw [h2]
    exact ha (h3.symm.trans hr) j hjl (by rw [he] at hrun; exact hrun)
  · intro hr j hj hrun
    obtain ⟨hjl, he⟩ := htcb j hj hrun
    rw [h4]
    exact hb (h3.symm.trans hr) j hjl (by rw [he] at hrun; exact hrun)

theorem schedInv_add (s : SchedState) (p : Nat) (h : SchedInv s) :
    SchedInv (schedAddTask s p) ∧ (schedAddTask s p).is_running = s.is_running := by
  unfold schedAddTask
  dsimp only
  split
  · exact ⟨h, rfl⟩
  · exact ⟨schedInv_append_aux s _ _ rfl rfl rfl rfl rfl h, rfl⟩

theorem schedInv_start_aux (s r : SchedState) (n : Nat)
    (h1 : r.tcbs = s.tcbs.set n { s.tcb n with state := .running })
    (h2 : r.current = some n) (h3 : r.is_running = true)
    (hinit : s.is_init = true) (hnr : s.is_running = false)
    (h : SchedInv s) : SchedInv r := by
  obtain ⟨ha, hb⟩ := h
  have hpre := hb hnr
  constructor
  · intro _ j hj hrun
    rw [h2]
    by_cases hjn : j = n
    · rw [hjn]
    · exfalso
      have hjlen : j < s.tcbs.length := by
        rw [h1, List.length_set] at hj
        exact hj
      have hrun2 : (s.tcb j).state = .running := by
        have he : r.tcb j = s.tcb j := by
          unfold SchedState.tcb
          rw [h1]
          exact list_getD_set_ne _ _ _ _ (fun hh => hjn hh.symm)
        rw [he] at hrun
        exact hrun
      have hfalse := (hpre j hjlen hrun2).2
      rw [hinit] at hfalse
      cases hfalse
  · intro hr
    rw [h3] at hr
    cases hr

theorem schedInv_start2 (s : SchedState) (h : SchedInv s) (hnr : s.is_running = false) :
    SchedInv (schedStart s) := by
  unfold schedStart
  dsimp only
  split
  next hinit => exact schedInv_start_aux s _ _ rfl rfl rfl hinit hnr h
  next hinit => exact h

theorem schedInv_wakeOne (w : SchedState) (i : Nat) (h : SchedInv w) :
    SchedInv (wakeOne w i) ∧ (wakeOne w i).is_running = w.is_running := by
  unfold wakeOne
  dsimp only
  split
  · exact ⟨schedInv_setTcb_nonrunning w i _ (fun hx => TaskState.noConfusion hx) h, rfl⟩
  · exact ⟨h, rfl⟩

theorem schedInv_wakeList (l : List Nat) (w : SchedState) (h : SchedInv w) :
    SchedInv (wakeList w l) ∧ (wakeList w l).is_running = w.is_running := by
  induction l generalizing w with
  | nil => exact ⟨h, rfl⟩
  | cons i rest ih =>
    obtain ⟨h1, h2⟩ := schedInv_wakeOne w i h
    obtain ⟨h3, h4⟩ := ih (wakeOne w i) h1
    exact ⟨h3, h4.trans h2⟩

theorem schedInv_tick (s : SchedState) (h : SchedInv s) :
    SchedInv (schedTick s) ∧ (schedTick s).is_running = s.is_running := by
  have h1 : SchedInv { s with tick_count := addm32 s.tick_count 1 } :=
    schedInv_congr s _ rfl rfl rfl rfl h
  unfold schedTick
  dsimp only
  split
  next c heq =>
    split
    next hpos =>
      have hS : SchedInv (SchedState.setTcb { s with tick_count := addm32 s.tick_count 1 } c { SchedState.tcb { s with tick_count := addm32 s.tick_count 1 } c with time_slice := (SchedState.tcb { s with tick_count := addm32 s.tick_count 1 } c).time_slice - 1 }) :=
        schedInv_setTcb_samestate _ c _ rfl h1
      split
      next hzero =>
        have hY := schedInv_yield _ hS
        exact ⟨(schedInv_wakeList _ _ hY.1).1,
          (schedInv_wakeList _ _ hY.1).2.trans (hY.2.1.trans rfl)⟩
      next hzero =>
        exact ⟨(schedInv_wakeList _ _ hS).1, (schedInv_wakeList _ _ hS).2.trans rfl⟩
    next hpos =>
      exact ⟨(schedInv_wakeList _ _ h1).1, (schedInv_wakeList _ _ h1).2.trans rfl⟩
  next heq =>
    exact ⟨(schedInv_wakeList _ _ h1).1, (schedInv_wakeList _ _ h1).2.trans rfl⟩

theorem schedInv_delay (s : SchedState) (d : Nat) (h : SchedInv s) :
    SchedInv (schedDelay s d) ∧ (schedDelay s d).is_running = s.is_running := by
  unfold schedDelay
  dsimp only
  split
  next heq => exact ⟨h, rfl⟩
  next c heq =>
    split
    next hrun =>
      split
      next hd0 => exact ⟨(schedInv_yield s h).1, (schedInv_yield s h).2.1⟩
      next hd0 =>
        have hS : SchedInv (SchedState.setTcb s c { SchedState.tcb s c with state := .blocked, blocked_until := addm32 s.tick_count d }) :=
          schedInv_setTcb_nonrunning s c _ (fun hx => TaskState.noConfusion hx) h
        exact ⟨(schedInv_yield _ hS).1, (schedInv_yield _ hS).2.1.trans rfl⟩
    next hrun => exact ⟨h, rfl⟩

theorem schedInv_suspend (s : SchedState) (i : Nat) (h : SchedInv s) :
    SchedInv (schedSuspend s i) ∧ (schedSuspend s i).is_running = s.is_running := by
  unfold schedSuspend
  dsimp only
  split
  next hlen =>
    split
    next hdel => exact ⟨h, rfl⟩
    next hdel =>
      have hS : SchedInv (SchedState.setTcb s i { SchedState.tcb s i with state := .suspended }) :=
        schedInv_setTcb_nonrunning s i _ (fun hx => TaskState.noConfusion hx) h
      split
      next hcur => exact ⟨(schedInv_yield _ hS).1, (schedInv_yield _ hS).2.1.trans rfl⟩
      next hcur => exact ⟨hS, rfl⟩
  next hlen => exact ⟨h, rfl⟩

theorem schedInv_resume (s : SchedState) (i : Nat) (h : SchedInv s) :
    SchedInv (schedResume s i) ∧ (schedResume s i).is_running = s.is_running := by
  unfold schedResume
  dsimp only
  split
  next hcond => exact ⟨schedInv_setTcb_nonrunning s i _ (fun hx => TaskState.noConfusion hx) h, rfl⟩
  next hcond => exact ⟨h, rfl⟩

theorem schedInv_remove (s : SchedState) (i : Nat) (h : SchedInv s) :
    SchedInv (schedRemove s i) ∧ (schedRemove s i).is_running = s.is_running := by
  unfold schedRemove
  dsimp only
  split
  next hmem =>
    have hS : SchedInv (SchedState.setTcb s i { SchedState.tcb s i with state := .deleted }) :=
      schedInv_setTcb_nonrunning s i _ (fun hx => TaskState.noConfusion hx) h
    exact ⟨schedInv_congr _ _ rfl rfl rfl rfl hS, rfl⟩
  next hmem => exact ⟨h, rfl⟩

theorem measure_step (a b : Bool) (n : Nat) (hab : a = b)
    (h : n + (if b = true then 1 else 0) ≤ 1) :
    n + (if a = true then 1 else 0) ≤ 1 := by
  rw [hab]
  exact h

theorem schedInv_run (ops : List SchedOp) (s : SchedState) (h : SchedInv s)
    (hm : countStart ops + (if s.is_running = true then 1 else 0) ≤ 1) :
    SchedInv (runSchedOps ops s) := by
  induction ops generalizing s with
  | nil => exact h
  | cons op rest ih =>
    have hstep : runSchedOps (op :: rest) s = runSchedOps rest (applySchedOp s op) := rfl
    rw [hstep]
    cases op with
    | opInit p =>
      have hc : countStart (SchedOp.opInit p :: rest) = countStart rest := by
        simp [countStart, List.countP_cons]
      obtain ⟨hI, hR⟩ := schedInv_init2 s p h
      exact ih _ hI (measure_step _ _ _ hR (by rw [hc] at hm; exact hm))
    | opAdd prio =>
      have hc : countStart (SchedOp.opAdd prio :: rest) = countStart rest := by
        simp [countStart, List.countP_cons]
      obtain ⟨hI, hR⟩ := schedInv_add s prio h
      exact ih _ hI (measure_step _ _ _ hR (by rw [hc] at hm; exact hm))
    | opStart =>
      have hc : countStart (SchedOp.opStart :: rest) = countStart rest + 1 := by
        simp [countStart, List.countP_cons]
      rw [hc] at hm
      have hnr : s.is_running = false := by
        cases hx : s.is_running with
        | false => rfl
        | true =>
          exfalso
          rw [hx] at hm
          have h2 : countStart rest + 1 + 1 ≤ 1 := hm
          omega
      have hcz : countStart rest = 0 := by
        rw [hnr] at hm
        have h2 : countStart rest + 1 + 0 ≤ 1 := hm
        omega
      refine ih _ (schedInv_start2 s h hnr) ?_
      rw [hcz]
      cases h2 : (applySchedOp s SchedOp.opStart).is_running with
      | false => decide
      | true => decide
    | opYield =>
      have hc : countStart (SchedOp.opYield :: rest) = countStart rest := by
        simp [countStart, List.countP_cons]
      obtain ⟨hI, hR, _⟩ := schedInv_yield s h
      exact ih _ hI (measure_step _ _ _ hR (by rw [hc] at hm; exact hm))
    | opTick =>
      have hc : countStart (SchedOp.opTick :: rest) = countStart rest := by
        simp [countStart, List.countP_cons]
      obtain ⟨hI, hR⟩ := schedInv_tick s h
      exact ih _ hI (measure_step _ _ _ hR (by rw [hc] at hm; exact hm))
    | opDelay d =>
      have hc : countStart (SchedOp.opDelay d :: rest) = countStart rest := by
        simp [countStart, List.countP_cons]
      obtain ⟨hI, hR⟩ := schedInv_delay s d h
      exact ih _ hI (measure_step _ _ _ hR (by rw [hc] at hm; exact hm))
    | opSuspend i =>
      have hc : countStart (SchedOp.opSuspend i :: rest) = countStart rest := by
        simp [countStart, List.countP_cons]
      obtain ⟨hI, hR⟩ := schedInv_suspend s i h
      exact ih _ hI (measure_step _ _ _ hR (by rw [hc] at hm; exact hm))
    | opResume i =>
      have hc : countStart (SchedOp.opResume i :: rest) = countStart rest := by
        simp [countStart, List.countP_cons]
      obtain ⟨hI, hR⟩ := schedInv_resume s i h
      exact ih _ hI (measure_step _ _ _ hR (by rw [hc] at hm; exact hm))
    | opRemove i =>
      have hc : countStart (SchedOp.opRemove i :: rest) = countStart rest := by
        simp [countStart, List.countP_cons]
      obtain ⟨hI, hR⟩ := schedInv_remove s i h
      exact ih _ hI (measure_step _ _ _ hR (by rw [hc] at hm; exact hm))

theorem schedInv_mk (idle0 : TCB) : SchedInv (mkScheduler idle0) := by
  constructor
  · intro hr
    exact Bool.noConfusion hr
  · intro _ i hi hrun
    have hi2 : i < 1 := hi
    exact ⟨by omega, rfl⟩

theorem schedInv_amor (s : SchedState) (h : SchedInv s) : atMostOneRunning s := by
  intro i hi j hj hri hrj
  rw [List.mem_range] at hi hj
  obtain ⟨ha, hb⟩ := h
  cases hx : s.is_running with
  | true =>
    have h1 := ha hx i hi hri
    have h2 := ha hx j hj hrj
    rw [h1] at h2
    cases h2
    rfl
  | false =>
    have h1 := (hb hx i hi hri).1
    have h2 := (hb hx j hj hrj).1
    rw [h1, h2]

/-- C1 (amended): for every sequence of scheduler operations containing at
    most one `start`, every state reachable from the fresh scheduler has at
    most one RUNNING task control block (idle task included). -/
theorem c1_at_most_one_running (idle0 : TCB) (ops : List SchedOp)
    (hops : countStart ops ≤ 1) :
    atMostOneRunning (runSchedOps ops (mkScheduler idle0)) := by
  refine schedInv_amor _ (schedInv_run ops (mkScheduler idle0) (schedInv_mk idle0) ?_)
  have hz : (if (mkScheduler idle0).is_running = true then 1 else 0) = 0 := rfl
  rw [hz]
  omega

theorem c1_at_most_one_running_witness :
    countStart [SchedOp.opInit .roundRobin, SchedOp.opAdd 2, SchedOp.opStart, SchedOp.opTick, SchedOp.opDelay 3, SchedOp.opTick] ≤ 1 ∧
    atMostOneRunning (runSchedOps [SchedOp.opInit .roundRobin, SchedOp.opAdd 2, SchedOp.opStart, SchedOp.opTick, SchedOp.opDelay 3, SchedOp.opTick] (mkScheduler { state := .ready, priority := 0, time_slice := 10, blocked_until := 0, run_count := 0 })) :=
  ⟨by decide, c1_at_most_one_running _ _ (by decide)⟩

end CppRTOS
